import Mathlib

/-!
Verification of the ordered-dictionary core of this repository
(`Objects/odictobject.c` together with `Objects/dict-common.h`).

The data model and the operations are translated from the C source into
executable Lean definitions:

* `PyDictKeyEntry`, `PyDictKeysObject`, `PyDictObject`, `PyODictObject`
  mirror the structs of `dict-common.h` and `odictobject.c`.
* Key and value references (`PyObject *`) are modelled as natural numbers,
  with `none` standing for a NULL pointer.  Hash values are modelled by
  their `size_t` image (a natural number below `2 ^ 64`).
* Loops that probe the hash index are written with an explicit fuel
  argument; `none` means the fuel ran out, which is shown to be impossible
  for well-formed tables with at least one empty index cell.

Functions of the repository that live in `Objects/dictobject.c` (which is
not part of this source tree: only `dict-common.h` declares them) are
modelled from the specification and marked as such in their doc comments.
-/

/-- `PERTURB_SHIFT` from dict-common.h. -/
def PERTURB_SHIFT : Nat := 5

/-- `DKIX_EMPTY` from dict-common.h. -/
def DKIX_EMPTY : Int := -1

/-- `DKIX_DUMMY` from dict-common.h. -/
def DKIX_DUMMY : Int := -2

/-- `DKIX_ERROR` from dict-common.h. -/
def DKIX_ERROR : Int := -3

/-- One entry of the dense entry store (`PyDictKeyEntry`).
`me_key = none` models a NULL key pointer (an unused or vacated slot),
`me_value = none` a NULL value (a hole in a combined table). -/
structure PyDictKeyEntry where
  me_hash : Nat
  me_key : Option Nat
  me_value : Option Nat
deriving DecidableEq, Repr

/-- A zeroed entry slot: `me_key = NULL`, `me_value = NULL`, `me_hash = 0`,
exactly what `move_to_end` writes into a vacated slot. -/
def zeroEntry : PyDictKeyEntry := { me_hash := 0, me_key := none, me_value := none }

/-- The key table (`struct _dictkeysobject` of dict-common.h).
`dk_indices` is the semantic content of the variable-width index array:
each cell holds `DKIX_EMPTY`, `DKIX_DUMMY` or a nonnegative entry index.
`dk_usable` is a `Py_ssize_t` and is therefore modelled as an integer. -/
structure PyDictKeysObject where
  dk_size : Nat
  dk_usable : Int
  dk_nentries : Nat
  dk_indices : List Int
  dk_entries : List PyDictKeyEntry
deriving DecidableEq, Repr

/-- `DK_MASK` from dict-common.h. -/
def DK_MASK (keys : PyDictKeysObject) : Nat := keys.dk_size - 1

/-- `dk_get_index` from dict-common.h: read one cell of the hash index.
The 1/2/4/8-byte width dispatch is memory layout only; semantically the
cell value is returned unchanged. -/
def dk_get_index (keys : PyDictKeysObject) (i : Nat) : Int :=
  keys.dk_indices.getD i DKIX_EMPTY

/-- `dk_set_index` from dict-common.h: write one cell of the hash index. -/
def dk_set_index (keys : PyDictKeysObject) (i : Nat) (ix : Int) : PyDictKeysObject :=
  { keys with dk_indices := keys.dk_indices.set i ix }

/-- `DK_ENTRIES(dk)[i]`: read one slot of the entry store. -/
def dk_getEntry (keys : PyDictKeysObject) (i : Nat) : PyDictKeyEntry :=
  keys.dk_entries.getD i zeroEntry

/-- The dict object (`PyDictObject`), restricted to the fields the ordered
dictionary code uses: live-entry count `ma_used`, begin offset `ma_offset`
and the owned key table.  `ma_values` is NULL for every ordered dict that
is iterated (asserted in `odictiter_iternext`), so split tables are not
represented. -/
structure PyDictObject where
  ma_used : Nat
  ma_offset : Nat
  ma_keys : PyDictKeysObject
deriving DecidableEq, Repr

/-- `GROWTH_RATE` from dict-common.h: `ma_used*2 + (dk_size >> 1)`. -/
def GROWTH_RATE (d : PyDictObject) : Nat :=
  d.ma_used * 2 + (d.ma_keys.dk_size >>> 1)

/-- The ordered dict object (`struct _odictobject`): the underlying dict
plus the mutation-state counter `od_state` (incremented whenever order is
changed).  The instance-dict and weak-reference fields play no role in the
map engine and are omitted. -/
structure PyODictObject where
  od_dict : PyDictObject
  od_state : Nat
deriving DecidableEq, Repr

/-- `_odict_EMPTY` from odictobject.c. -/
def odict_EMPTY (od : PyODictObject) : Prop := od.od_dict.ma_used = 0

instance (od : PyODictObject) : Decidable (odict_EMPTY od) := by
  unfold odict_EMPTY; infer_instance

/-- Probe loop of `lookdict_ident` (odictobject.c lines 575-600).
Searches the key by identity only; stops at an EMPTY cell or at a cell
whose referenced entry holds the identical key.  `fuel` bounds the number
of probe steps; `none` means the bound was hit. -/
def lookdict_ident_loop (keys : PyDictKeysObject) (key : Nat) :
    Nat → Nat → Nat → Option Int
  | 0, _, _ => none
  | fuel + 1, i, perturb =>
    if dk_get_index keys i = DKIX_EMPTY then
      some DKIX_EMPTY
    else if 0 ≤ dk_get_index keys i ∧
        (dk_getEntry keys (dk_get_index keys i).toNat).me_key = some key then
      some (dk_get_index keys i)
    else
      lookdict_ident_loop keys key fuel
        (DK_MASK keys &&& (i * 5 + (perturb >>> PERTURB_SHIFT) + 1))
        (perturb >>> PERTURB_SHIFT)

/-- `lookdict_ident` from odictobject.c: identity-only lookup, used to find
a key again after `dictresize` without invoking user equality. -/
def lookdict_ident (keys : PyDictKeysObject) (key : Nat) (hash : Nat)
    (fuel : Nat) : Option Int :=
  lookdict_ident_loop keys key fuel (hash &&& DK_MASK keys) hash

/-- Modelled from the spec: probe loop of the general lookup `lookdict`,
whose definition lives in `Objects/dictobject.c` and is not part of this
source tree (dict-common.h only documents that `dk_lookup` returns the
entry index, `DKIX_EMPTY` when no entry is found, or `DKIX_ERROR` when a
comparison raises).  Per spec section 4.1 the probe starts at
`hash & mask` and steps by `i*5 + perturb + 1` with `perturb >>= 5`,
stopping at an EMPTY cell (miss) or at a cell whose entry key is equal to
the query key (hit); the equality callback `eqf` may fail (`none`), in
which case the lookup aborts with `DKIX_ERROR`. -/
def lookdict_loop (keys : PyDictKeysObject) (eqf : Nat → Nat → Option Bool)
    (key : Nat) : Nat → Nat → Nat → Option Int
  | 0, _, _ => none
  | fuel + 1, i, perturb =>
    if dk_get_index keys i = DKIX_EMPTY then
      some DKIX_EMPTY
    else if 0 ≤ dk_get_index keys i then
      match eqf ((dk_getEntry keys (dk_get_index keys i).toNat).me_key.getD 0) key with
      | none => some DKIX_ERROR
      | some true => some (dk_get_index keys i)
      | some false =>
        lookdict_loop keys eqf key fuel
          (DK_MASK keys &&& (i * 5 + (perturb >>> PERTURB_SHIFT) + 1))
          (perturb >>> PERTURB_SHIFT)
    else
      lookdict_loop keys eqf key fuel
        (DK_MASK keys &&& (i * 5 + (perturb >>> PERTURB_SHIFT) + 1))
        (perturb >>> PERTURB_SHIFT)

/-- Modelled from the spec: the general lookup (`dk_lookup`; defined in
`Objects/dictobject.c`, absent from this tree). -/
def lookdict (fuel : Nat) (keys : PyDictKeysObject)
    (eqf : Nat → Nat → Option Bool) (key : Nat) (hash : Nat) : Option Int :=
  lookdict_loop keys eqf key fuel (hash &&& DK_MASK keys) hash

/-- Modelled from the spec: probe loop of `lookdict_index` (declared in
dict-common.h, defined in `Objects/dictobject.c`, absent from this tree).
It locates the hash-index cell that refers to entry `index`, following the
same probe sequence as the lookups, and returns that cell position, or
`DKIX_EMPTY` if an empty cell is met first. -/
def lookdict_index_loop (keys : PyDictKeysObject) (index : Int) :
    Nat → Nat → Nat → Option Int
  | 0, _, _ => none
  | fuel + 1, i, perturb =>
    if dk_get_index keys i = index then
      some (Int.ofNat i)
    else if dk_get_index keys i = DKIX_EMPTY then
      some DKIX_EMPTY
    else
      lookdict_index_loop keys index fuel
        (DK_MASK keys &&& (i * 5 + (perturb >>> PERTURB_SHIFT) + 1))
        (perturb >>> PERTURB_SHIFT)

/-- Modelled from the spec: `lookdict_index` (see `lookdict_index_loop`). -/
def lookdict_index (fuel : Nat) (keys : PyDictKeysObject) (hash : Nat)
    (index : Int) : Option Int :=
  lookdict_index_loop keys index fuel (hash &&& DK_MASK keys) hash

/-- A live entry of a combined table: its value pointer is not NULL. -/
def isLive (e : PyDictKeyEntry) : Bool := e.me_value.isSome

/-- Modelled from the spec: the doubling loop with which `dictresize`
(`Objects/dictobject.c`, absent from this tree) chooses the capacity.
Per spec section 4.2 the requested minimum is rounded up to the next
power of two, with a floor of 8 slots; the loop starts at 8 and doubles
until the request fits (the fuel argument only bounds the doubling). -/
def dict_new_size_loop (minused : Nat) : Nat → Nat → Nat
  | 0, s => s
  | fuel + 1, s =>
    if minused ≤ s then s else dict_new_size_loop minused fuel (s * 2)

/-- Modelled from the spec: the capacity chosen by `dictresize`. -/
def dict_new_size (minused : Nat) : Nat := dict_new_size_loop minused minused 8

/-- Modelled from the spec: probe loop used when rebuilding the hash index
during `dictresize`: find the first EMPTY cell on the probe sequence of
`hash` and store the entry index `j` there. -/
def insert_index_loop (size : Nat) (indices : List Int) (j : Nat) :
    Nat → Nat → Nat → Option (List Int)
  | 0, _, _ => none
  | fuel + 1, i, perturb =>
    if indices.getD i DKIX_EMPTY = DKIX_EMPTY then
      some (indices.set i (Int.ofNat j))
    else
      insert_index_loop size indices j fuel
        ((size - 1) &&& (i * 5 + (perturb >>> PERTURB_SHIFT) + 1))
        (perturb >>> PERTURB_SHIFT)

/-- Modelled from the spec: store entry index `j` for `hash` in the first
empty cell of its probe sequence. -/
def insert_index (fuel size : Nat) (indices : List Int) (hash j : Nat) :
    Option (List Int) :=
  insert_index_loop size indices j fuel (hash &&& (size - 1)) hash

/-- Modelled from the spec: rebuild the hash index of a resized table by
re-inserting each live entry under its stored hash. -/
def build_indices (fuel size : Nat) (entries : List PyDictKeyEntry) :
    Option (List Int) :=
  entries.enum.foldl
    (fun acc je =>
      match acc with
      | none => none
      | some ind =>
        if isLive je.2 then insert_index fuel size ind je.2.me_hash je.1
        else some ind)
    (some (List.replicate size DKIX_EMPTY))

/-- Modelled from the spec: `dictresize` (declared in dict-common.h,
defined in `Objects/dictobject.c`, absent from this tree).  Per spec
section 4.2 it allocates a table of `dict_new_size minused` slots, copies
the live entries in their existing relative order into the new entry
store starting at slot `offset` (holes are dropped), rebuilds the hash
index from the relocated entries, sets the begin offset to `offset`, and
leaves `ma_used` unchanged.  Allocation failure is modelled separately by
the callers (their allocator flag); `none` here only means the rebuild
fuel ran out.  The usable count of the new table is the usable fraction
(2/3) of the capacity minus the populated slots. -/
def dictresize (fuel : Nat) (mp : PyDictObject) (minused offset : Nat) :
    Option PyDictObject :=
  let newsize := dict_new_size minused
  let live := mp.ma_keys.dk_entries.filter isLive
  let newEntries :=
    List.replicate offset zeroEntry ++ live ++
      List.replicate (newsize - (offset + live.length)) zeroEntry
  match build_indices fuel newsize newEntries with
  | none => none
  | some ind =>
    some { ma_used := mp.ma_used
           ma_offset := offset
           ma_keys :=
             { dk_size := newsize
               dk_usable := (2 * (newsize : Int)) / 3 - ((offset : Int) + live.length)
               dk_nentries := offset + live.length
               dk_indices := ind
               dk_entries := newEntries } }

/-- Result of `OrderedDict_move_to_end_impl`: success returns the new
object state; `NotFound` is the KeyError path, `ComparisonFailed` the
propagated hash/equality callback failure (`DKIX_ERROR`),
`AllocationFailed` a failed `dictresize`. -/
inductive MoveResult where
  | Ok (od : PyODictObject)
  | NotFound
  | ComparisonFailed
  | AllocationFailed
deriving DecidableEq, Repr

/-- The shared relocation step of `OrderedDict_move_to_end_impl`
(odictobject.c lines 659-672 and 689-701): repoint the hash-index cell
`hashpos` to `target`, copy the entry from `ixn` to `target`, zero the
vacated slot, increment `dk_nentries` and decrement `dk_usable`. -/
def move_entry (keys : PyDictKeysObject) (ixn target hashpos : Nat) :
    PyDictKeysObject :=
  { keys with
    dk_indices := keys.dk_indices.set hashpos (Int.ofNat target)
    dk_entries := (keys.dk_entries.set target (dk_getEntry keys ixn)).set ixn zeroEntry
    dk_nentries := keys.dk_nentries + 1
    dk_usable := keys.dk_usable - 1 }

/-- Tail of the `last` branch of `OrderedDict_move_to_end_impl`
(odictobject.c lines 659-672): move entry `ixn` to slot `dk_nentries`;
if the vacated slot equals the begin offset, advance the offset. -/
def move_tail (fuel : Nat) (mp : PyDictObject) (st : Nat)
    (ixn offset hash : Nat) : Option MoveResult :=
  match lookdict_index fuel mp.ma_keys hash (Int.ofNat ixn) with
  | none => none
  | some hashpos =>
    some (MoveResult.Ok
      { od_dict :=
          { mp with
            ma_keys := move_entry mp.ma_keys ixn mp.ma_keys.dk_nentries hashpos.toNat
            ma_offset := if ixn = offset then offset + 1 else offset }
        od_state := st + 1 })

/-- Tail of the `last = false` branch of `OrderedDict_move_to_end_impl`
(odictobject.c lines 689-701): move entry `ixn` to slot `offset - 1` and
make that the new begin offset. -/
def move_front (fuel : Nat) (mp : PyDictObject) (st : Nat)
    (ixn offset hash : Nat) : Option MoveResult :=
  match lookdict_index fuel mp.ma_keys hash (Int.ofNat ixn) with
  | none => none
  | some hashpos =>
    some (MoveResult.Ok
      { od_dict :=
          { mp with
            ma_keys := move_entry mp.ma_keys ixn (offset - 1) hashpos.toNat
            ma_offset := offset - 1 }
        od_state := st + 1 })

/-- The `last = true` branch of `OrderedDict_move_to_end_impl`
(odictobject.c lines 646-673): no-op when the entry sits in slot
`dk_nentries - 1`; resize (reserving the current offset) when no usable
slot remains, re-locating the key by identity afterwards. -/
def move_last_branch (fuel : Nat) (allocOk : Bool) (self_ : PyODictObject)
    (key1 hash : Nat) (ix : Int) : Option MoveResult :=
  if ix = (self_.od_dict.ma_keys.dk_nentries : Int) - 1 then
    some (MoveResult.Ok self_)
  else if self_.od_dict.ma_keys.dk_usable = 0 then
    if allocOk = false then some MoveResult.AllocationFailed
    else
      match dictresize fuel self_.od_dict
          (GROWTH_RATE self_.od_dict + self_.od_dict.ma_offset)
          self_.od_dict.ma_offset with
      | none => none
      | some mp2 =>
        match lookdict_ident mp2.ma_keys key1 hash fuel with
        | none => none
        | some ix2 =>
          move_tail fuel mp2 self_.od_state ix2.toNat self_.od_dict.ma_offset hash
  else
    move_tail fuel self_.od_dict self_.od_state ix.toNat self_.od_dict.ma_offset hash

/-- The `last = false` branch of `OrderedDict_move_to_end_impl`
(odictobject.c lines 674-702): no-op when the entry sits at the begin
offset; when the offset is 0, resize first, reserving
`ma_used / 2 + 2` leading empty slots. -/
def move_front_branch (fuel : Nat) (allocOk : Bool) (self_ : PyODictObject)
    (key1 hash : Nat) (ix : Int) : Option MoveResult :=
  if ix = (self_.od_dict.ma_offset : Int) then
    some (MoveResult.Ok self_)
  else if self_.od_dict.ma_offset = 0 then
    if allocOk = false then some MoveResult.AllocationFailed
    else
      match dictresize fuel self_.od_dict
          (GROWTH_RATE self_.od_dict + (self_.od_dict.ma_used / 2 + 2))
          (self_.od_dict.ma_used / 2 + 2) with
      | none => none
      | some mp2 =>
        match lookdict_ident mp2.ma_keys key1 hash fuel with
        | none => none
        | some ix2 =>
          move_front fuel mp2 self_.od_state ix2.toNat (self_.od_dict.ma_used / 2 + 2) hash
  else
    move_front fuel self_.od_dict self_.od_state ix.toNat self_.od_dict.ma_offset hash

/-- `OrderedDict_move_to_end_impl` from odictobject.c (lines 616-705).
`hashRes` is the outcome of `PyObject_Hash(key)` (`none`: the hash
callback failed); `eqf` is the user equality callback consumed by the
general lookup; `allocOk` models the allocator.  `none` means a probe
fuel bound was hit (never the case for well-formed tables with enough
fuel). -/
def OrderedDict_move_to_end_impl (fuel : Nat)
    (eqf : Nat → Nat → Option Bool) (allocOk : Bool)
    (self_ : PyODictObject) (key : Nat) (hashRes : Option Nat)
    (last : Bool) : Option MoveResult :=
  if self_.od_dict.ma_used = 0 then some MoveResult.NotFound
  else
    match hashRes with
    | none => some MoveResult.ComparisonFailed
    | some hash =>
      match lookdict fuel self_.od_dict.ma_keys eqf key hash with
      | none => none
      | some ix =>
        if ix = DKIX_EMPTY then some MoveResult.NotFound
        else if ix = DKIX_ERROR then some MoveResult.ComparisonFailed
        else
          let key1 := (dk_getEntry self_.od_dict.ma_keys ix.toNat).me_key.getD 0
          if last then move_last_branch fuel allocOk self_ key1 hash ix
          else move_front_branch fuel allocOk self_ key1 hash ix

/-- `_odict_ITER_REVERSED` from odictobject.c. -/
def odict_ITER_REVERSED : Nat := 1

/-- `_odict_ITER_KEYS` from odictobject.c. -/
def odict_ITER_KEYS : Nat := 2

/-- `_odict_ITER_VALUES` from odictobject.c. -/
def odict_ITER_VALUES : Nat := 4

/-- The ordered-dict iterator (`odictiterobject`).  `di_odict = true`
models a held reference to the dictionary (`di_odict != NULL`);
`di_state` is an integer because the empty-creation path stores
`(size_t)(-1)`.  The reusable result tuple `di_result` is memory
management only and is omitted. -/
structure odictiterobject where
  kind : Nat
  di_odict : Bool
  di_keys : Option PyDictKeysObject
  di_size : Int
  di_state : Int
  di_pos : Int
deriving DecidableEq, Repr

/-- What one call of `odictiter_iternext` reports: a yielded key, value or
item; plain exhaustion (NULL return with no error set); the RuntimeError
for mutation during iteration; or the RuntimeError for a size change
during iteration. -/
inductive IterResult where
  | yieldKey (k : Option Nat)
  | yieldValue (v : Option Nat)
  | yieldItem (k v : Option Nat)
  | exhausted
  | mutated
  | sizeChanged
deriving DecidableEq, Repr

/-- `odictiter_new` from odictobject.c (lines 1208-1246): the iterator
snapshots the size; when the dict is non-empty it also keeps a reference
to it and snapshots the key table, the mutation-state counter and the
starting position; otherwise it holds no reference at all. -/
def odictiter_new (od : PyODictObject) (kind : Nat) : odictiterobject :=
  if (od.od_dict.ma_used : Int) > 0 then
    { kind := kind
      di_odict := true
      di_keys := some od.od_dict.ma_keys
      di_size := (od.od_dict.ma_used : Int)
      di_state := (od.od_state : Int)
      di_pos :=
        if kind &&& odict_ITER_REVERSED ≠ 0 then
          (od.od_dict.ma_keys.dk_nentries : Int) - 1
        else (od.od_dict.ma_offset : Int) }
  else
    { kind := kind
      di_odict := false
      di_keys := none
      di_size := (od.od_dict.ma_used : Int)
      di_state := -1
      di_pos := -1 }

/-- The reversed hole-skipping walk of `odictiter_iternext`
(lines 1079-1088): decrement while `pos >= offset` and the slot is a
hole.  The fuel only bounds the loop; callers pass enough for the walk to
finish. -/
def rev_skip (dk : PyDictKeysObject) (offset : Int) :
    Nat → Int → Int
  | 0, pos => pos
  | fuel + 1, pos =>
    if offset ≤ pos ∧ (dk_getEntry dk pos.toNat).me_value = none then
      rev_skip dk offset fuel (pos - 1)
    else pos

/-- The forward hole-skipping walk of `odictiter_iternext`
(lines 1091-1095): increment while `pos < n` and the slot is a hole. -/
def fwd_skip (dk : PyDictKeysObject) (n : Int) :
    Nat → Int → Int
  | 0, pos => pos
  | fuel + 1, pos =>
    if pos < n ∧ (dk_getEntry dk pos.toNat).me_value = none then
      fwd_skip dk n fuel (pos + 1)
    else pos

/-- Selection of the yielded object by iterator kind
(odictobject.c lines 1103-1142, minus the tuple-reuse bookkeeping). -/
def mk_item (kind : Nat) (e : PyDictKeyEntry) : IterResult :=
  if kind &&& odict_ITER_VALUES = 0 then IterResult.yieldKey e.me_key
  else if kind &&& odict_ITER_KEYS = 0 then IterResult.yieldValue e.me_value
  else IterResult.yieldItem e.me_key e.me_value

/-- `odictiter_iternext` from odictobject.c (lines 1048-1147).  `od` is
the current state of the dictionary the iterator references (the C code
reads it through `di->di_odict`).  Returns the report together with the
updated iterator. -/
def odictiter_iternext (di : odictiterobject) (od : PyODictObject) :
    IterResult × odictiterobject :=
  if di.di_odict = false then (IterResult.exhausted, di)
  else
    let dk := od.od_dict.ma_keys
    if (od.od_state : Int) ≠ di.di_state ∨ some dk ≠ di.di_keys then
      (IterResult.mutated, { di with di_odict := false })
    else if di.di_size ≠ (od.od_dict.ma_used : Int) then
      (IterResult.sizeChanged, { di with di_size := -1 })
    else if di.kind &&& odict_ITER_REVERSED ≠ 0 then
      let offset : Int := (od.od_dict.ma_offset : Int)
      let pos := rev_skip dk offset (di.di_pos + 1).toNat di.di_pos
      if pos < 0 then (IterResult.exhausted, { di with di_odict := false })
      else (mk_item di.kind (dk_getEntry dk pos.toNat), { di with di_pos := pos - 1 })
    else
      let n : Int := (dk.dk_nentries : Int)
      let pos := fwd_skip dk n (n - di.di_pos).toNat di.di_pos
      if n ≤ pos then (IterResult.exhausted, { di with di_odict := false })
      else (mk_item di.kind (dk_getEntry dk pos.toNat), { di with di_pos := pos + 1 })

/-- Result of the insert operation. -/
inductive SetItemResult where
  | Ok (od : PyODictObject)
  | ComparisonFailed
  | AllocationFailed
deriving DecidableEq, Repr

/-- Modelled from the spec: appending a new key to the entry store
(`insertdict` of `Objects/dictobject.c`, absent from this tree).  The new
entry is written at `dk_nentries`, its index is stored in the first empty
probe cell of its hash, the live count rises and, because the insertion
order changed, the mutation-state counter is incremented (spec sections
4.2 and 4.4). -/
def append_new_entry (fuel : Nat) (od : PyODictObject)
    (key value hash : Nat) : Option PyODictObject :=
  let mp := od.od_dict
  let keys := mp.ma_keys
  match insert_index fuel keys.dk_size keys.dk_indices hash keys.dk_nentries with
  | none => none
  | some ind =>
    some
      { od_dict :=
          { mp with
            ma_used := mp.ma_used + 1
            ma_keys :=
              { keys with
                dk_indices := ind
                dk_entries := keys.dk_entries.set keys.dk_nentries
                  { me_hash := hash, me_key := some key, me_value := some value }
                dk_nentries := keys.dk_nentries + 1
                dk_usable := keys.dk_usable - 1 } }
        od_state := od.od_state + 1 }

/-- Modelled from the spec: `PyODict_SetItem` forwards to `PyDict_SetItem`
(odictobject.c lines 997-1001), whose body lives in
`Objects/dictobject.c`, absent from this tree.  Per spec section 4.2,
insert first performs a lookup; on a hit only the value is replaced (the
order, and hence the mutation-state counter, is untouched); on a miss a
resize precedes the insertion when no usable slot remains, and the new
key is appended. -/
def PyODict_SetItem (fuel : Nat) (eqf : Nat → Nat → Option Bool)
    (allocOk : Bool) (od : PyODictObject) (key value : Nat)
    (hashRes : Option Nat) : Option SetItemResult :=
  match hashRes with
  | none => some SetItemResult.ComparisonFailed
  | some hash =>
    let mp := od.od_dict
    match lookdict fuel mp.ma_keys eqf key hash with
    | none => none
    | some ix =>
      if ix = DKIX_ERROR then some SetItemResult.ComparisonFailed
      else if 0 ≤ ix then
        some (SetItemResult.Ok
          { od with od_dict :=
              { mp with ma_keys :=
                  { mp.ma_keys with
                    dk_entries := mp.ma_keys.dk_entries.set ix.toNat
                      { dk_getEntry mp.ma_keys ix.toNat with me_value := some value } } } })
      else if mp.ma_keys.dk_usable = 0 then
        if allocOk = false then some SetItemResult.AllocationFailed
        else
          match dictresize fuel mp (GROWTH_RATE mp) mp.ma_offset with
          | none => none
          | some mp2 =>
            match append_new_entry fuel { od with od_dict := mp2 } key value hash with
            | none => none
            | some od2 => some (SetItemResult.Ok od2)
      else
        match append_new_entry fuel od key value hash with
        | none => none
        | some od2 => some (SetItemResult.Ok od2)

/-- Result of the delete operation. -/
inductive DelResult where
  | Ok (od : PyODictObject)
  | NotFound
  | ComparisonFailed
deriving DecidableEq, Repr

/-- Modelled from the spec: `PyODict_DelItem` forwards to
`PyDict_DelItem` (odictobject.c lines 1003-1007), whose body lives in
`Objects/dictobject.c`, absent from this tree.  The found entry is
cleared, its hash-index cell becomes `DKIX_DUMMY`, the live count drops,
and the mutation-state counter is incremented (spec sections 3 and 4.4:
every delete is a structural change). -/
def PyODict_DelItem (fuel : Nat) (eqf : Nat → Nat → Option Bool)
    (od : PyODictObject) (key : Nat) (hashRes : Option Nat) :
    Option DelResult :=
  match hashRes with
  | none => some DelResult.ComparisonFailed
  | some hash =>
    let mp := od.od_dict
    match lookdict fuel mp.ma_keys eqf key hash with
    | none => none
    | some ix =>
      if ix = DKIX_ERROR then some DelResult.ComparisonFailed
      else if ix = DKIX_EMPTY then some DelResult.NotFound
      else
        match lookdict_index fuel mp.ma_keys hash ix with
        | none => none
        | some hashpos =>
          some (DelResult.Ok
            { od_dict :=
                { mp with
                  ma_used := mp.ma_used - 1
                  ma_keys :=
                    { mp.ma_keys with
                      dk_indices := mp.ma_keys.dk_indices.set hashpos.toNat DKIX_DUMMY
                      dk_entries := mp.ma_keys.dk_entries.set ix.toNat
                        { me_hash := (dk_getEntry mp.ma_keys ix.toNat).me_hash
                          me_key := none, me_value := none } } }
              od_state := od.od_state + 1 })

/-- The (key, value) pair contributed by one entry slot: defined only for
slots holding both a key and a value. -/
def pairOf (e : PyDictKeyEntry) : Option (Nat × Nat) :=
  match e.me_key, e.me_value with
  | some k, some v => some (k, v)
  | _, _ => none

/-- The multiset of key-to-value pairs stored in an entry list. -/
def livePairs (l : List PyDictKeyEntry) : Multiset (Nat × Nat) :=
  (l.filterMap pairOf : List (Nat × Nat))

/-- The physical slot of the last live entry in logical iteration order
(slots `[ma_offset, dk_nentries)` read left to right, skipping holes), if
any. -/
def lastLiveSlot (mp : PyDictObject) : Option Nat :=
  ((List.range mp.ma_keys.dk_nentries).filter
    (fun j => decide (mp.ma_offset ≤ j) && isLive (dk_getEntry mp.ma_keys j))).getLast?

/-! Generic list helpers used by the frame and preservation proofs. -/

theorem getD_set_self {α : Type} (l : List α) (i : Nat) (a d : α)
    (h : i < l.length) : (l.set i a).getD i d = a := by
  simp [List.getD_eq_getElem?_getD, List.getElem?_set_self, h]

theorem getD_set_ne {α : Type} (l : List α) {i j : Nat} (a : α) (d : α)
    (h : i ≠ j) : (l.set i a).getD j d = l.getD j d := by
  simp [List.getD_eq_getElem?_getD, List.getElem?_set_ne h]

theorem filterMap_cons_toList {α β : Type} (f : α → Option β) (a : α)
    (l : List α) : (a :: l).filterMap f = (f a).toList ++ l.filterMap f := by
  cases h : f a <;> simp [List.filterMap_cons, h]

theorem filterMap_set {α β : Type} (f : α → Option β) (l : List α) (j : Nat)
    (a : α) (h : j < l.length) (d : α) :
    ((l.set j a).filterMap f : Multiset β) + ((f (l.getD j d)).toList : List β) =
      (l.filterMap f : Multiset β) + ((f a).toList : List β) := by
  have hd : l.getD j d = l.get ⟨j, h⟩ := by
    simp [List.getD_eq_getElem?_getD, List.getElem?_eq_getElem h, List.get_eq_getElem]
  have hset : l.set j a = l.take j ++ a :: l.drop (j + 1) := by
    rw [List.set_eq_take_append_cons_drop]
    simp [h]
  have hl : l = l.take j ++ l.get ⟨j, h⟩ :: l.drop (j + 1) := by
    conv_lhs => rw [← List.take_append_drop j l]
    congr 1
    rw [List.get_eq_getElem, List.getElem_cons_drop]
  rw [hd]
  conv_rhs => rw [hl]
  rw [hset]
  simp only [List.filterMap_append, filterMap_cons_toList, List.append_assoc]
  simp only [← Multiset.coe_add]
  abel

theorem pairOf_zeroEntry : pairOf zeroEntry = none := rfl

/-- Relocating one entry (copy slot `i` to a dead slot `t`, then zero
slot `i`) preserves the multiset of stored key-to-value pairs. -/
theorem livePairs_move (l : List PyDictKeyEntry) (i t : Nat)
    (hi : i < l.length) (ht : t < l.length) (hne : t ≠ i)
    (hdead : pairOf (l.getD t zeroEntry) = none) :
    livePairs ((l.set t (l.getD i zeroEntry)).set i zeroEntry) = livePairs l := by
  have h1 := filterMap_set pairOf l t (l.getD i zeroEntry) ht zeroEntry
  have h2 := filterMap_set pairOf (l.set t (l.getD i zeroEntry)) i zeroEntry
    (by simpa using hi) zeroEntry
  rw [hdead] at h1
  rw [getD_set_ne _ _ _ hne, pairOf_zeroEntry] at h2
  simp only [Option.toList_none, Multiset.coe_nil, add_zero] at h1 h2
  unfold livePairs
  have := h2.trans h1
  exact add_right_cancel this

/-- Shape of a successful `move_tail`. -/
theorem move_tail_cases (fuel : Nat) (mp : PyDictObject) (st ixn offset hash : Nat)
    (r : MoveResult) (h : move_tail fuel mp st ixn offset hash = some r) :
    ∃ hp : Int, lookdict_index fuel mp.ma_keys hash (Int.ofNat ixn) = some hp ∧
      r = MoveResult.Ok
        { od_dict :=
            { mp with
              ma_keys := move_entry mp.ma_keys ixn mp.ma_keys.dk_nentries hp.toNat
              ma_offset := if ixn = offset then offset + 1 else offset }
          od_state := st + 1 } := by
  unfold move_tail at h
  cases hlk : lookdict_index fuel mp.ma_keys hash (Int.ofNat ixn) with
  | none => rw [hlk] at h; simp at h
  | some hp =>
    rw [hlk] at h
    simp only [Option.some.injEq] at h
    exact ⟨hp, rfl, h.symm⟩

/-- Shape of a successful `move_front`. -/
theorem move_front_cases (fuel : Nat) (mp : PyDictObject) (st ixn offset hash : Nat)
    (r : MoveResult) (h : move_front fuel mp st ixn offset hash = some r) :
    ∃ hp : Int, lookdict_index fuel mp.ma_keys hash (Int.ofNat ixn) = some hp ∧
      r = MoveResult.Ok
        { od_dict :=
            { mp with
              ma_keys := move_entry mp.ma_keys ixn (offset - 1) hp.toNat
              ma_offset := offset - 1 }
          od_state := st + 1 } := by
  unfold move_front at h
  cases hlk : lookdict_index fuel mp.ma_keys hash (Int.ofNat ixn) with
  | none => rw [hlk] at h; simp at h
  | some hp =>
    rw [hlk] at h
    simp only [Option.some.injEq] at h
    exact ⟨hp, rfl, h.symm⟩

/-- Every successful outcome of the `last` branch is the untouched no-op
or carries a mutation-state counter one above the old one. -/
theorem move_last_branch_ok (fuel : Nat) (allocOk : Bool)
    (self_ : PyODictObject) (key1 hash : Nat) (ix : Int) (od2 : PyODictObject)
    (h : move_last_branch fuel allocOk self_ key1 hash ix = some (MoveResult.Ok od2)) :
    od2 = self_ ∨ od2.od_state = self_.od_state + 1 := by
  unfold move_last_branch at h
  split at h
  · left
    simp only [Option.some.injEq, MoveResult.Ok.injEq] at h
    exact h.symm
  · split at h
    · split at h
      · simp at h
      · split at h
        · simp at h
        · split at h
          · simp at h
          · right
            obtain ⟨hp, -, hr⟩ := move_tail_cases _ _ _ _ _ _ _ h
            cases hr
            rfl
    · right
      obtain ⟨hp, -, hr⟩ := move_tail_cases _ _ _ _ _ _ _ h
      cases hr
      rfl

/-- Every successful outcome of the `last = false` branch is the
untouched no-op or carries a mutation-state counter one above. -/
theorem move_front_branch_ok (fuel : Nat) (allocOk : Bool)
    (self_ : PyODictObject) (key1 hash : Nat) (ix : Int) (od2 : PyODictObject)
    (h : move_front_branch fuel allocOk self_ key1 hash ix = some (MoveResult.Ok od2)) :
    od2 = self_ ∨ od2.od_state = self_.od_state + 1 := by
  unfold move_front_branch at h
  split at h
  · left
    simp only [Option.some.injEq, MoveResult.Ok.injEq] at h
    exact h.symm
  · split at h
    · split at h
      · simp at h
      · split at h
        · simp at h
        · split at h
          · simp at h
          · right
            obtain ⟨hp, -, hr⟩ := move_front_cases _ _ _ _ _ _ _ h
            cases hr
            rfl
    · right
      obtain ⟨hp, -, hr⟩ := move_front_cases _ _ _ _ _ _ _ h
      cases hr
      rfl

/-- Every successful `move_to_end` either returns the object unchanged
(the two no-op paths) or increments `od_state` by exactly one. -/
theorem move_to_end_ok_state (fuel : Nat) (eqf : Nat → Nat → Option Bool)
    (allocOk : Bool) (self_ : PyODictObject) (key : Nat)
    (hashRes : Option Nat) (last : Bool) (od2 : PyODictObject)
    (h : OrderedDict_move_to_end_impl fuel eqf allocOk self_ key hashRes last
      = some (MoveResult.Ok od2)) :
    od2 = self_ ∨ od2.od_state = self_.od_state + 1 := by
  unfold OrderedDict_move_to_end_impl at h
  split at h
  · simp at h
  · cases hashRes with
    | none => simp at h
    | some hash =>
      simp only at h
      cases hlk : lookdict fuel self_.od_dict.ma_keys eqf key hash with
      | none => rw [hlk] at h; simp at h
      | some ix =>
        rw [hlk] at h
        simp only at h
        split at h
        · simp at h
        · split at h
          · simp at h
          · split at h
            · exact move_last_branch_ok _ _ _ _ _ _ _ h
            · exact move_front_branch_ok _ _ _ _ _ _ _ h
def probe_c : Nat → Nat
  | 0 => 0
  | m + 1 => 5 * probe_c m + 1

theorem probe_c_mul (m : Nat) : 4 * probe_c m + 1 = 5 ^ m := by
  induction m with
  | zero => simp [probe_c]
  | succ m ih =>
    have h : 4 * probe_c (m + 1) + 1 = 5 * (4 * probe_c m + 1) := by
      simp [probe_c]; ring
    rw [h, ih, pow_succ]
    ring

theorem probe_c_add (a b : Nat) : probe_c (a + b) = 5 ^ b * probe_c a + probe_c b := by
  induction b with
  | zero => simp [probe_c]
  | succ b ih =>
    have h : a + (b + 1) = (a + b) + 1 := by omega
    rw [h]
    simp only [probe_c, ih, pow_succ]
    ring

theorem pow5_pow2 (k : Nat) : ∃ d, 5 ^ 2 ^ k = 1 + 2 ^ (k + 2) * d ∧ d % 2 = 1 := by
  induction k with
  | zero => exact ⟨1, by norm_num, by norm_num⟩
  | succ k ih =>
    obtain ⟨d, hd, hodd⟩ := ih
    refine ⟨d + 2 ^ (k + 1) * d ^ 2, ?_, ?_⟩
    · have h2 : (2 : Nat) ^ (k + 1) = 2 ^ k * 2 := by rw [pow_succ]
      have h5 : (5 : Nat) ^ 2 ^ (k + 1) = (5 ^ 2 ^ k) ^ 2 := by
        rw [h2, pow_mul]
      rw [h5, hd]
      have e1 : (k + 2) + (k + 2) = (k + 3) + (k + 1) := by omega
      calc (1 + 2 ^ (k + 2) * d) ^ 2
          = 1 + 2 ^ (k + 3) * d + 2 ^ ((k + 2) + (k + 2)) * d ^ 2 := by
            rw [pow_add]
            have h3 : (2:Nat) ^ (k + 3) = 2 ^ (k + 2) * 2 := by rw [pow_succ]
            rw [h3]
            ring
        _ = 1 + 2 ^ (k + 3) * (d + 2 ^ (k + 1) * d ^ 2) := by
            rw [e1, pow_add]
            ring
    · have h1 : (2 : Nat) ^ (k + 1) = 2 * 2 ^ k := by rw [pow_succ]; ring
      have h2 : 2 ^ (k + 1) * d ^ 2 = 2 * (2 ^ k * d ^ 2) := by rw [h1]; ring
      omega

theorem probe_c_pow2 (k : Nat) : ∃ e, probe_c (2 ^ k) = 2 ^ k * e ∧ e % 2 = 1 := by
  obtain ⟨d, hd, hodd⟩ := pow5_pow2 k
  refine ⟨d, ?_, hodd⟩
  have h := probe_c_mul (2 ^ k)
  rw [hd] at h
  have hp : (2:Nat) ^ (k + 2) = 4 * 2 ^ k := by
    rw [pow_add]; ring
  have h4 : 4 * probe_c (2 ^ k) = 4 * (2 ^ k * d) := by
    rw [hp] at h
    have : 4 * (2 ^ k * d) = 4 * 2 ^ k * d := by ring
    omega
  omega

theorem probe_cover (k : Nat) : ∀ s t, s < 2 ^ k → t < 2 ^ k →
    ∃ m, m < 2 ^ k ∧ (5 ^ m * s + probe_c m) % 2 ^ k = t := by
  induction k with
  | zero =>
    intro s t hs ht
    interval_cases s
    interval_cases t
    exact ⟨0, by norm_num, by simp [probe_c]⟩
  | succ k ih =>
    intro s t hs ht
    have hpos : 0 < (2:Nat) ^ k := Nat.pos_pow_of_pos k (by norm_num)
    have hpos1 : 0 < (2:Nat) ^ (k + 1) := Nat.pos_pow_of_pos _ (by norm_num)
    have hsucc : (2:Nat) ^ (k + 1) = 2 ^ k + 2 ^ k := by rw [pow_succ]; ring
    obtain ⟨m, hm, hmeq⟩ := ih (s % 2 ^ k) (t % 2 ^ k)
      (Nat.mod_lt _ hpos) (Nat.mod_lt _ hpos)
    set A := 5 ^ m * s + probe_c m with hA
    set X := A % 2 ^ (k + 1) with hX
    have hdvd : (2:Nat) ^ k ∣ 2 ^ (k + 1) := ⟨2, by rw [pow_succ]⟩
    have hmul : (5 ^ m * s) % 2 ^ k = (5 ^ m * (s % 2 ^ k)) % 2 ^ k := by
      conv_lhs => rw [Nat.mul_mod]
      conv_rhs => rw [Nat.mul_mod, Nat.mod_mod_of_dvd s (dvd_refl _)]
    have hXmod : X % 2 ^ k = t % 2 ^ k := by
      rw [hX, Nat.mod_mod_of_dvd _ hdvd, hA, Nat.add_mod, hmul, ← Nat.add_mod, hmeq]
    have hXlt : X < 2 ^ (k + 1) := Nat.mod_lt _ hpos1
    have hXeq : X = 2 ^ k * (X / 2 ^ k) + X % 2 ^ k := (Nat.div_add_mod X (2 ^ k)).symm
    have hteq : t = 2 ^ k * (t / 2 ^ k) + t % 2 ^ k := (Nat.div_add_mod t (2 ^ k)).symm
    have hXd : X / 2 ^ k ≤ 1 := by
      have h := Nat.div_lt_iff_lt_mul (k := 2 ^ k) (x := X) (y := 2) hpos
      omega
    have htd : t / 2 ^ k ≤ 1 := by
      have h := Nat.div_lt_iff_lt_mul (k := 2 ^ k) (x := t) (y := 2) hpos
      omega
    have hXm : X % 2 ^ k < 2 ^ k := Nat.mod_lt _ hpos
    have htm : t % 2 ^ k < 2 ^ k := Nat.mod_lt _ hpos
    have hcase : X = t ∨ X = t + 2 ^ k ∨ t = X + 2 ^ k := by
      set a := X / 2 ^ k with ha
      set b := t / 2 ^ k with hb
      interval_cases a <;> interval_cases b <;> omega
    rcases hcase with hc | hc
    · exact ⟨m, by omega, by rw [← hA, ← hX, hc]⟩
    · -- use m + 2 ^ k in both remaining cases
      obtain ⟨d, hd, hdodd⟩ := pow5_pow2 k
      obtain ⟨e, he, heodd⟩ := probe_c_pow2 k
      set W := 5 ^ m * (4 * d * s + e) with hW
      have hE : 5 ^ (m + 2 ^ k) * s + probe_c (m + 2 ^ k) = A + 2 ^ k * W := by
        rw [add_comm m (2 ^ k), probe_c_add, pow_add, hd, he, hA, hW]
        have hp : (2:Nat) ^ (k + 2) = 2 ^ k * 4 := by rw [pow_add]; ring
        rw [hp]
        ring
      have h5odd : 5 ^ m % 2 = 1 := by
        rw [Nat.pow_mod]
        norm_num
      have hWodd : W % 2 = 1 := by
        rw [hW, Nat.mul_mod, h5odd]
        have h2e : 4 * d * s = 2 * (2 * d * s) := by ring
        have hde : (4 * d * s + e) % 2 = 1 := by omega
        rw [hde]
      have hw2 : W = 2 * (W / 2) + 1 := by omega
      have hsplit : A + 2 ^ k * W = (A + 2 ^ k) + 2 ^ (k + 1) * (W / 2) := by
        conv_lhs => rw [hw2]
        rw [pow_succ]
        ring
      have hmod1 : (A + 2 ^ k * W) % 2 ^ (k + 1) = (A + 2 ^ k) % 2 ^ (k + 1) := by
        rw [hsplit, Nat.add_mul_mod_self_left]
      have hXX : X % 2 ^ (k + 1) = X := by
        rw [hX]
        exact Nat.mod_mod_of_dvd A (dvd_refl _)
      have hmod2 : (A + 2 ^ k) % 2 ^ (k + 1) = (X + 2 ^ k) % 2 ^ (k + 1) := by
        conv_lhs => rw [Nat.add_mod]
        conv_rhs => rw [Nat.add_mod, hXX]
      refine ⟨m + 2 ^ k, by omega, ?_⟩
      rw [hE, hmod1, hmod2]
      rcases hc with hc | hc
      · rw [hc]
        have hrw : t + 2 ^ k + 2 ^ k = t + 2 ^ (k + 1) := by omega
        rw [hrw, Nat.add_mod_right]
        exact Nat.mod_eq_of_lt ht
      · rw [← hc]
        exact Nat.mod_eq_of_lt (by omega)

/-- The sequence of hash-index cells visited by the probe loops: start at
`hash & mask`, then `i = mask & (i*5 + perturb + 1)` with
`perturb >>= PERTURB_SHIFT` before each use. -/
def probeSeq (mask hash : Nat) : Nat → Nat
  | 0 => hash &&& mask
  | j + 1 =>
    mask &&& (probeSeq mask hash j * 5 + (hash >>> (PERTURB_SHIFT * (j + 1))) + 1)

theorem probeSeq_lt (k hash j : Nat) : probeSeq (2 ^ k - 1) hash j < 2 ^ k := by
  have hpos : 0 < (2:Nat) ^ k := Nat.pos_pow_of_pos k (by norm_num)
  cases j with
  | zero =>
    have h := Nat.and_le_right (n := hash) (m := 2 ^ k - 1)
    simp only [probeSeq]
    omega
  | succ j =>
    have h := Nat.and_le_left
      (n := 2 ^ k - 1)
      (m := probeSeq (2 ^ k - 1) hash j * 5 + (hash >>> (PERTURB_SHIFT * (j + 1))) + 1)
    simp only [probeSeq]
    omega

theorem shift_high_zero (hash j : Nat) (hh : hash < 2 ^ 64) (hj : 13 ≤ j) :
    hash >>> (PERTURB_SHIFT * j) = 0 := by
  rw [Nat.shiftRight_eq_div_pow]
  apply Nat.div_eq_of_lt
  calc hash < 2 ^ 64 := hh
    _ ≤ 2 ^ (PERTURB_SHIFT * j) := by
        apply Nat.pow_le_pow_right (by norm_num)
        simp [PERTURB_SHIFT]
        omega

theorem probeSeq_step_nop (k hash j : Nat) (hh : hash < 2 ^ 64) (hj : 13 ≤ j + 1) :
    probeSeq (2 ^ k - 1) hash (j + 1) = (5 * probeSeq (2 ^ k - 1) hash j + 1) % 2 ^ k := by
  simp only [probeSeq]
  rw [shift_high_zero hash (j + 1) hh hj]
  rw [Nat.and_comm, Nat.and_pow_two_sub_one_eq_mod]
  ring_nf

theorem probeSeq_closed (k hash m : Nat) (hh : hash < 2 ^ 64) :
    probeSeq (2 ^ k - 1) hash (13 + m) =
      (5 ^ m * probeSeq (2 ^ k - 1) hash 13 + probe_c m) % 2 ^ k := by
  induction m with
  | zero =>
    simp only [probe_c, pow_zero, one_mul, add_zero]
    exact (Nat.mod_eq_of_lt (probeSeq_lt k hash 13)).symm
  | succ m ih =>
    have h1 : 13 + (m + 1) = (13 + m) + 1 := by omega
    rw [h1, probeSeq_step_nop k hash (13 + m) hh (by omega), ih]
    set s := probeSeq (2 ^ k - 1) hash 13 with hs
    have hmm : (5 * ((5 ^ m * s + probe_c m) % 2 ^ k)) % 2 ^ k
        = (5 * (5 ^ m * s + probe_c m)) % 2 ^ k := by
      conv_lhs => rw [Nat.mul_mod, Nat.mod_mod_of_dvd _ (dvd_refl _)]
      conv_rhs => rw [Nat.mul_mod]
    rw [Nat.add_mod, hmm, ← Nat.add_mod]
    have : 5 * (5 ^ m * s + probe_c m) + 1 = 5 ^ (m + 1) * s + probe_c (m + 1) := by
      simp only [probe_c, pow_succ]
      ring
    rw [this]

/-- The condition on a probed cell that makes `lookdict_ident` stop: an
empty cell, or a cell referencing the identical key. -/
def identStop (keys : PyDictKeysObject) (key : Nat) (i : Nat) : Prop :=
  dk_get_index keys i = DKIX_EMPTY ∨
    (0 ≤ dk_get_index keys i ∧
      (dk_getEntry keys (dk_get_index keys i).toNat).me_key = some key)

theorem probeSeq_succ_arg (keys : PyDictKeysObject) (hash j : Nat) :
    DK_MASK keys &&&
      (probeSeq (DK_MASK keys) hash j * 5 +
        ((hash >>> (PERTURB_SHIFT * j)) >>> PERTURB_SHIFT) + 1) =
    probeSeq (DK_MASK keys) hash (j + 1) := by
  rw [← Nat.shiftRight_add]
  have h : PERTURB_SHIFT * j + PERTURB_SHIFT = PERTURB_SHIFT * (j + 1) := by ring
  rw [h]
  simp only [probeSeq]

theorem shiftRight_succ_arg (hash j : Nat) :
    (hash >>> (PERTURB_SHIFT * j)) >>> PERTURB_SHIFT = hash >>> (PERTURB_SHIFT * (j + 1)) := by
  rw [← Nat.shiftRight_add]
  have h : PERTURB_SHIFT * j + PERTURB_SHIFT = PERTURB_SHIFT * (j + 1) := by ring
  rw [h]

/-- If some cell on the probe sequence within the fuel bound satisfies the
stop condition, the identity-lookup loop returns a result. -/
theorem lookdict_ident_loop_stops (keys : PyDictKeysObject) (key hash : Nat) :
    ∀ fuel j,
      (∃ m, m < fuel ∧ identStop keys key (probeSeq (DK_MASK keys) hash (j + m))) →
      ∃ r, lookdict_ident_loop keys key fuel (probeSeq (DK_MASK keys) hash j)
          (hash >>> (PERTURB_SHIFT * j)) = some r := by
  intro fuel
  induction fuel with
  | zero =>
    intro j h
    obtain ⟨m, hm, -⟩ := h
    omega
  | succ fuel ih =>
    intro j h
    obtain ⟨m, hm, hstop⟩ := h
    by_cases hs : identStop keys key (probeSeq (DK_MASK keys) hash j)
    · rcases hs with he | hmatch
      · exact ⟨DKIX_EMPTY, by simp [lookdict_ident_loop, he]⟩
      · refine ⟨dk_get_index keys (probeSeq (DK_MASK keys) hash j), ?_⟩
        simp only [lookdict_ident_loop]
        rw [if_neg, if_pos hmatch]
        intro hcontra
        rw [hcontra] at hmatch
        simp [DKIX_EMPTY] at hmatch
    · have hm0 : m ≠ 0 := by
        intro h0
        rw [h0, Nat.add_zero] at hstop
        exact hs hstop
      obtain ⟨m2, rfl⟩ : ∃ m2, m = m2 + 1 := ⟨m - 1, by omega⟩
      have hstep : j + 1 + m2 = j + (m2 + 1) := by omega
      obtain ⟨r, hr⟩ := ih (j + 1) ⟨m2, by omega, by rw [hstep]; exact hstop⟩
      refine ⟨r, ?_⟩
      simp only [lookdict_ident_loop]
      rw [if_neg, if_neg]
      · rw [probeSeq_succ_arg, shiftRight_succ_arg]
        exact hr
      · intro hcond
        exact hs (Or.inr hcond)
      · intro hcond
        exact hs (Or.inl hcond)

/-- Whatever the identity-lookup loop returns is either `DKIX_EMPTY` or a
nonnegative entry index whose entry holds the identical key; in
particular it is never `DKIX_ERROR`. -/
theorem lookdict_ident_loop_sound (keys : PyDictKeysObject) (key : Nat) :
    ∀ fuel i p r, lookdict_ident_loop keys key fuel i p = some r →
      r = DKIX_EMPTY ∨ (0 ≤ r ∧ (dk_getEntry keys r.toNat).me_key = some key) := by
  intro fuel
  induction fuel with
  | zero =>
    intro i p r h
    simp [lookdict_ident_loop] at h
  | succ fuel ih =>
    intro i p r h
    simp only [lookdict_ident_loop] at h
    split at h
    · left
      simp only [Option.some.injEq] at h
      omega
    · split at h
      · right
        simp only [Option.some.injEq] at h
        rename_i hcond
        rw [← h]
        exact hcond
      · exact ih _ _ _ h

theorem ident_probe_hits_empty (keys : PyDictKeysObject) (key hash k : Nat)
    (hsz : keys.dk_size = 2 ^ k) (hh : hash < 2 ^ 64)
    (hempty : ∃ ei, ei < keys.dk_size ∧ dk_get_index keys ei = DKIX_EMPTY) :
    ∃ j, j < keys.dk_size + 14 ∧ identStop keys key (probeSeq (DK_MASK keys) hash j) := by
  obtain ⟨ei, heilt, hei⟩ := hempty
  have hmask : DK_MASK keys = 2 ^ k - 1 := by rw [DK_MASK, hsz]
  have hs := probeSeq_lt k hash 13
  rw [hsz] at heilt
  obtain ⟨m, hm, hmeq⟩ := probe_cover k (probeSeq (2 ^ k - 1) hash 13) ei hs heilt
  refine ⟨13 + m, by rw [hsz]; omega, ?_⟩
  rw [hmask]
  left
  rw [probeSeq_closed k hash m hh, hmeq]
  exact hei

/-- C6: the identity-only lookup declares a hit only when the stored key
reference is identical to the query key, never returns `DKIX_ERROR`, and,
for every key table of power-of-two size holding at least one EMPTY index
cell, terminates with either the entry index of the identical key or
`DKIX_EMPTY`.  It takes no equality callback at all (see its type), so it
can never invoke user equality.  The probe sequence is
`probeSeq`: start `hash & mask`, step `mask & (i*5 + perturb + 1)` with
`perturb >>= 5`, exactly the loop of odictobject.c lines 575-600. -/
theorem C6_lookdict_ident_sound_total (keys : PyDictKeysObject)
    (key hash k : Nat) (hsz : keys.dk_size = 2 ^ k) (hh : hash < 2 ^ 64)
    (hempty : ∃ ei, ei < keys.dk_size ∧ dk_get_index keys ei = DKIX_EMPTY) :
    ∃ r : Int, lookdict_ident keys key hash (keys.dk_size + 14) = some r ∧
      r ≠ DKIX_ERROR ∧
      (r = DKIX_EMPTY ∨ (0 ≤ r ∧ (dk_getEntry keys r.toNat).me_key = some key)) := by
  obtain ⟨j, hj, hstop⟩ := ident_probe_hits_empty keys key hash k hsz hh hempty
  obtain ⟨r, hr⟩ := lookdict_ident_loop_stops keys key hash (keys.dk_size + 14) 0
    ⟨j, hj, by rw [Nat.zero_add]; exact hstop⟩
  have h0 : probeSeq (DK_MASK keys) hash 0 = hash &&& DK_MASK keys := rfl
  have hp0 : hash >>> (PERTURB_SHIFT * 0) = hash := by
    rw [Nat.mul_zero, Nat.shiftRight_zero]
  rw [h0, hp0] at hr
  have hsound := lookdict_ident_loop_sound keys key _ _ _ _ hr
  refine ⟨r, hr, ?_, hsound⟩
  rcases hsound with h | h
  · rw [h]
    simp [DKIX_EMPTY, DKIX_ERROR]
  · intro hc
    rw [hc] at h
    simp [DKIX_ERROR] at h

/-! Concrete states used by the witnesses and counterexamples. -/

/-- A decidable equality callback that never fails. -/
def eqF : Nat → Nat → Option Bool := fun a b => some (a = b : Bool)

/-- An equality callback that always fails (raises). -/
def eqBad : Nat → Nat → Option Bool := fun _ _ => none

/-- A well-formed table of size 8 holding keys 1 and 2 (hash = key). -/
def keys0 : PyDictKeysObject :=
  { dk_size := 8, dk_usable := 3, dk_nentries := 2
    dk_indices := [DKIX_EMPTY, 0, 1, DKIX_EMPTY, DKIX_EMPTY, DKIX_EMPTY, DKIX_EMPTY, DKIX_EMPTY]
    dk_entries := [⟨1, some 1, some 11⟩, ⟨2, some 2, some 12⟩, zeroEntry, zeroEntry, zeroEntry] }

/-- An ordered dict over `keys0`. -/
def od0 : PyODictObject :=
  { od_dict := { ma_used := 2, ma_offset := 0, ma_keys := keys0 }, od_state := 0 }

/-- An empty ordered dict (fresh table of size 8). -/
def odE : PyODictObject :=
  { od_dict :=
      { ma_used := 0, ma_offset := 0
        ma_keys :=
          { dk_size := 8, dk_usable := 5, dk_nentries := 0
            dk_indices := List.replicate 8 DKIX_EMPTY
            dk_entries := List.replicate 5 zeroEntry } }
    od_state := 0 }

/-- The result of inserting key 1 (hash 1, value 5) into `odE`. -/
def odE1 : PyODictObject :=
  { od_dict :=
      { ma_used := 1, ma_offset := 0
        ma_keys :=
          { dk_size := 8, dk_usable := 4, dk_nentries := 1
            dk_indices := [DKIX_EMPTY, 0, DKIX_EMPTY, DKIX_EMPTY, DKIX_EMPTY, DKIX_EMPTY, DKIX_EMPTY, DKIX_EMPTY]
            dk_entries := [⟨1, some 1, some 5⟩, zeroEntry, zeroEntry, zeroEntry, zeroEntry] } }
    od_state := 1 }

/-- A table where key 1 (at slot 0) is the only live entry but slot 1 is a
hole left by a deletion: `dk_nentries` is still 2. -/
def odH : PyODictObject :=
  { od_dict :=
      { ma_used := 1, ma_offset := 0
        ma_keys :=
          { dk_size := 8, dk_usable := 3, dk_nentries := 2
            dk_indices := [DKIX_EMPTY, 0, DKIX_DUMMY, DKIX_EMPTY, DKIX_EMPTY, DKIX_EMPTY, DKIX_EMPTY, DKIX_EMPTY]
            dk_entries := [⟨1, some 1, some 11⟩, ⟨2, none, none⟩, zeroEntry, zeroEntry, zeroEntry] } }
    od_state := 0 }

/-- A table holding key 1 under hash 0, so that looking up the different
key 2 with the colliding hash 0 must invoke the equality callback. -/
def odC : PyODictObject :=
  { od_dict :=
      { ma_used := 1, ma_offset := 0
        ma_keys :=
          { dk_size := 8, dk_usable := 4, dk_nentries := 1
            dk_indices := [0, DKIX_EMPTY, DKIX_EMPTY, DKIX_EMPTY, DKIX_EMPTY, DKIX_EMPTY, DKIX_EMPTY, DKIX_EMPTY]
            dk_entries := [⟨0, some 1, some 11⟩, zeroEntry, zeroEntry, zeroEntry, zeroEntry] } }
    od_state := 0 }

/-- C10: an iterator created on an ordered dict with zero live entries
holds no reference to the dict and every advance, against any later state
of the dict, reports plain exhaustion, never a mutation or size-change
error; the iterator itself is returned unchanged, so the same holds for
all subsequent advances. -/
theorem C10_empty_iterator_plain_exhaustion (od : PyODictObject) (kind : Nat)
    (h : od.od_dict.ma_used = 0) :
    (odictiter_new od kind).di_odict = false ∧
    ∀ od2 : PyODictObject,
      odictiter_iternext (odictiter_new od kind) od2 =
        (IterResult.exhausted, odictiter_new od kind) := by
  have hz : ¬ ((od.od_dict.ma_used : Int) > 0) := by simp [h]
  refine ⟨by simp [odictiter_new, hz], ?_⟩
  intro od2
  simp [odictiter_new, hz, odictiter_iternext]

theorem C10_empty_iterator_plain_exhaustion_witness :
    odE.od_dict.ma_used = 0 ∧
    (odictiter_new odE odict_ITER_KEYS).di_odict = false ∧
    odictiter_iternext (odictiter_new odE odict_ITER_KEYS) odH =
      (IterResult.exhausted, odictiter_new odE odict_ITER_KEYS) :=
  ⟨rfl, (C10_empty_iterator_plain_exhaustion odE odict_ITER_KEYS rfl).1,
    (C10_empty_iterator_plain_exhaustion odE odict_ITER_KEYS rfl).2 odH⟩

/-- A successful `append_new_entry` bumps the mutation-state counter. -/
theorem append_new_entry_state (fuel : Nat) (od : PyODictObject)
    (key value hash : Nat) (od2 : PyODictObject)
    (h : append_new_entry fuel od key value hash = some od2) :
    od2.od_state = od.od_state + 1 := by
  unfold append_new_entry at h
  dsimp only at h
  cases hi : insert_index fuel od.od_dict.ma_keys.dk_size
      od.od_dict.ma_keys.dk_indices hash od.od_dict.ma_keys.dk_nentries with
  | none => rw [hi] at h; simp at h
  | some ind =>
    rw [hi] at h
    simp only [Option.some.injEq] at h
    rw [← h]

/-- A successful insert of a key the lookup misses (a new key) bumps the
mutation-state counter by exactly one. -/
theorem setItem_new_key_state (fuel : Nat) (eqf : Nat → Nat → Option Bool)
    (allocOk : Bool) (od : PyODictObject) (key value hash : Nat)
    (od1 : PyODictObject)
    (hlk : lookdict fuel od.od_dict.ma_keys eqf key hash = some DKIX_EMPTY)
    (hok : PyODict_SetItem fuel eqf allocOk od key value (some hash)
      = some (SetItemResult.Ok od1)) :
    od1.od_state = od.od_state + 1 := by
  unfold PyODict_SetItem at hok
  dsimp only at hok
  rw [hlk] at hok
  dsimp only at hok
  rw [if_neg (by decide : ¬ (DKIX_EMPTY = DKIX_ERROR)),
    if_neg (by decide : ¬ ((0:Int) ≤ DKIX_EMPTY))] at hok
  split at hok
  · split at hok
    · simp at hok
    · split at hok
      · simp at hok
      · rename_i mp2 hmp2
        split at hok
        · simp at hok
        · rename_i od2 hod2
          simp only [Option.some.injEq, SetItemResult.Ok.injEq] at hok
          rw [← hok]
          exact append_new_entry_state fuel
            { od_dict := mp2, od_state := od.od_state } key value hash od2 hod2
  · split at hok
    · simp at hok
    · rename_i od2 hod2
      simp only [Option.some.injEq, SetItemResult.Ok.injEq] at hok
      rw [← hok]
      exact append_new_entry_state _ _ _ _ _ _ hod2

/-- C2 (amended to ordered dicts with at least one live entry): the
iterator snapshots the mutation-state counter and the live-entry count at
creation, and after an insert of a new key the next advance reports the
mutation error. -/
theorem C2_nonempty_iter_snapshot_insert_mutates (od od1 : PyODictObject)
    (kind fuel : Nat) (eqf : Nat → Nat → Option Bool) (allocOk : Bool)
    (key value hash : Nat)
    (h0 : od.od_dict.ma_used ≠ 0)
    (hnew : lookdict fuel od.od_dict.ma_keys eqf key hash = some DKIX_EMPTY)
    (hins : PyODict_SetItem fuel eqf allocOk od key value (some hash)
      = some (SetItemResult.Ok od1)) :
    (odictiter_new od kind).di_state = (od.od_state : Int) ∧
    (odictiter_new od kind).di_size = (od.od_dict.ma_used : Int) ∧
    (odictiter_iternext (odictiter_new od kind) od1).1 = IterResult.mutated := by
  have hstate := setItem_new_key_state fuel eqf allocOk od key value hash od1 hnew hins
  have hpos : (od.od_dict.ma_used : Int) > 0 := by
    exact_mod_cast Nat.pos_of_ne_zero h0
  have hne : (od1.od_state : Int) ≠ (od.od_state : Int) := by
    rw [hstate]
    push_cast
    omega
  refine ⟨by simp [odictiter_new, hpos], by simp [odictiter_new, hpos], ?_⟩
  simp [odictiter_new, hpos, odictiter_iternext, hne]

theorem C2_nonempty_iter_snapshot_insert_mutates_witness :
    od0.od_dict.ma_used ≠ 0 ∧
    lookdict 30 od0.od_dict.ma_keys eqF 3 3 = some DKIX_EMPTY ∧
    (odictiter_new od0 odict_ITER_KEYS).di_state = (od0.od_state : Int) ∧
    (odictiter_new od0 odict_ITER_KEYS).di_size = (od0.od_dict.ma_used : Int) := by
  have h0 : od0.od_dict.ma_used ≠ 0 := by decide
  have hnew : lookdict 30 od0.od_dict.ma_keys eqF 3 3 = some DKIX_EMPTY := by decide
  have hins : PyODict_SetItem 30 eqF true od0 3 13 (some 3)
      = some (SetItemResult.Ok
        { od_dict :=
            { ma_used := 3, ma_offset := 0
              ma_keys :=
                { dk_size := 8, dk_usable := 2, dk_nentries := 3
                  dk_indices := [DKIX_EMPTY, 0, 1, 2, DKIX_EMPTY, DKIX_EMPTY, DKIX_EMPTY, DKIX_EMPTY]
                  dk_entries := [⟨1, some 1, some 11⟩, ⟨2, some 2, some 12⟩,
                    ⟨3, some 3, some 13⟩, zeroEntry, zeroEntry] } }
          od_state := 1 }) := by decide
  have h := C2_nonempty_iter_snapshot_insert_mutates od0 _ odict_ITER_KEYS 30 eqF
    true 3 13 3 h0 hnew hins
  exact ⟨h0, hnew, h.1, h.2.1⟩

/-- C2 counterexample: on an ordered dict that is empty at iterator
creation, inserting a new key and advancing does not report the mutation
error; the advance reports plain exhaustion instead. -/
theorem C2_counterexample_empty_map :
    PyODict_SetItem 30 eqF true odE 1 5 (some 1) = some (SetItemResult.Ok odE1) ∧
    (odictiter_iternext (odictiter_new odE odict_ITER_KEYS) odE1).1
      = IterResult.exhausted ∧
    IterResult.exhausted ≠ IterResult.mutated :=
  ⟨by decide, by decide, by decide⟩

/-- Classifies the outcomes the spec lists for `move_to_end`. -/
def outcome_in_claimed_set : MoveResult → Bool
  | MoveResult.Ok _ => true
  | MoveResult.NotFound => true
  | MoveResult.AllocationFailed => true
  | MoveResult.ComparisonFailed => false

/-- C8 (amended): every outcome of `move_to_end` is one of Ok, NotFound,
AllocationFailed, or ComparisonFailed (a propagated hash or equality
callback failure, the `DKIX_ERROR` path of odictobject.c line 638); no
further outcome exists. -/
theorem C8_move_to_end_outcomes (fuel : Nat) (eqf : Nat → Nat → Option Bool)
    (allocOk : Bool) (self_ : PyODictObject) (key : Nat)
    (hashRes : Option Nat) (last : Bool) (r : MoveResult)
    (_h : OrderedDict_move_to_end_impl fuel eqf allocOk self_ key hashRes last
      = some r) :
    (∃ od2, r = MoveResult.Ok od2) ∨ r = MoveResult.NotFound ∨
      r = MoveResult.AllocationFailed ∨ r = MoveResult.ComparisonFailed := by
  cases r with
  | Ok od2 => exact Or.inl ⟨od2, rfl⟩
  | NotFound => exact Or.inr (Or.inl rfl)
  | ComparisonFailed => exact Or.inr (Or.inr (Or.inr rfl))
  | AllocationFailed => exact Or.inr (Or.inr (Or.inl rfl))

theorem C8_move_to_end_outcomes_witness :
    OrderedDict_move_to_end_impl 30 eqF true od0 7 (some 7) true
      = some MoveResult.NotFound ∧
    ((∃ od2, MoveResult.NotFound = MoveResult.Ok od2) ∨
      MoveResult.NotFound = MoveResult.NotFound ∨
      MoveResult.NotFound = MoveResult.AllocationFailed ∨
      MoveResult.NotFound = MoveResult.ComparisonFailed) :=
  ⟨by decide,
    C8_move_to_end_outcomes 30 eqF true od0 7 (some 7) true MoveResult.NotFound
      (by decide)⟩

/-- C8 counterexample: with a user equality callback that fails, a
`move_to_end` on a table with a hash collision returns the fourth
outcome, ComparisonFailed, which the claim does not list. -/
theorem C8_counterexample_comparison_failure :
    OrderedDict_move_to_end_impl 30 eqBad true odC 2 (some 0) true
      = some MoveResult.ComparisonFailed ∧
    (OrderedDict_move_to_end_impl 30 eqBad true odC 2 (some 0) true).map
      outcome_in_claimed_set = some false :=
  ⟨by decide, by decide⟩

/-- A successful delete bumps the mutation-state counter by one. -/
theorem delItem_ok_state (fuel : Nat) (eqf : Nat → Nat → Option Bool)
    (od : PyODictObject) (key : Nat) (hashRes : Option Nat)
    (od1 : PyODictObject)
    (h : PyODict_DelItem fuel eqf od key hashRes = some (DelResult.Ok od1)) :
    od1.od_state = od.od_state + 1 := by
  unfold PyODict_DelItem at h
  cases hashRes with
  | none => simp at h
  | some hash =>
    dsimp only at h
    cases hlk : lookdict fuel od.od_dict.ma_keys eqf key hash with
    | none => rw [hlk] at h; simp at h
    | some ix =>
      rw [hlk] at h
      dsimp only at h
      split at h
      · simp at h
      · split at h
        · simp at h
        · split at h
          · simp at h
          · simp only [Option.some.injEq, DelResult.Ok.injEq] at h
            rw [← h]

/-- C1: every structural change increments the mutation-state counter:
a successful reorder either leaves the object entirely unchanged (the
two no-op paths, which change nothing structural) or increments
`od_state` by exactly one; an insert of a new key (one the lookup
misses) increments it; a successful delete increments it.  A resize
only happens inside these operations (the single increment at
odictobject.c line 703 covers reorder-with-resize). -/
theorem C1_structural_change_increments_state :
    (∀ (fuel : Nat) (eqf : Nat → Nat → Option Bool) (allocOk : Bool)
        (self_ : PyODictObject) (key : Nat) (hashRes : Option Nat)
        (last : Bool) (od2 : PyODictObject),
      OrderedDict_move_to_end_impl fuel eqf allocOk self_ key hashRes last
          = some (MoveResult.Ok od2) →
        od2 = self_ ∨ od2.od_state = self_.od_state + 1) ∧
    (∀ (fuel : Nat) (eqf : Nat → Nat → Option Bool) (allocOk : Bool)
        (od : PyODictObject) (key value hash : Nat) (od1 : PyODictObject),
      lookdict fuel od.od_dict.ma_keys eqf key hash = some DKIX_EMPTY →
      PyODict_SetItem fuel eqf allocOk od key value (some hash)
          = some (SetItemResult.Ok od1) →
        od1.od_state = od.od_state + 1) ∧
    (∀ (fuel : Nat) (eqf : Nat → Nat → Option Bool) (od : PyODictObject)
        (key : Nat) (hashRes : Option Nat) (od1 : PyODictObject),
      PyODict_DelItem fuel eqf od key hashRes = some (DelResult.Ok od1) →
        od1.od_state = od.od_state + 1) :=
  ⟨fun fuel eqf allocOk self_ key hashRes last od2 h =>
      move_to_end_ok_state fuel eqf allocOk self_ key hashRes last od2 h,
    fun fuel eqf allocOk od key value hash od1 hlk hok =>
      setItem_new_key_state fuel eqf allocOk od key value hash od1 hlk hok,
    fun fuel eqf od key hashRes od1 h =>
      delItem_ok_state fuel eqf od key hashRes od1 h⟩

/-- The state of `od0` after `move_to_end(1, last=True)`. -/
def od0m : PyODictObject :=
  { od_dict :=
      { ma_used := 2, ma_offset := 1
        ma_keys :=
          { dk_size := 8, dk_usable := 2, dk_nentries := 3
            dk_indices := [DKIX_EMPTY, 2, 1, DKIX_EMPTY, DKIX_EMPTY, DKIX_EMPTY, DKIX_EMPTY, DKIX_EMPTY]
            dk_entries := [zeroEntry, ⟨2, some 2, some 12⟩, ⟨1, some 1, some 11⟩,
              zeroEntry, zeroEntry] } }
    od_state := 1 }

/-- The state of `od0` after deleting key 1. -/
def od0d : PyODictObject :=
  { od_dict :=
      { ma_used := 1, ma_offset := 0
        ma_keys :=
          { dk_size := 8, dk_usable := 3, dk_nentries := 2
            dk_indices := [DKIX_EMPTY, DKIX_DUMMY, 1, DKIX_EMPTY, DKIX_EMPTY, DKIX_EMPTY, DKIX_EMPTY, DKIX_EMPTY]
            dk_entries := [⟨1, none, none⟩, ⟨2, some 2, some 12⟩, zeroEntry,
              zeroEntry, zeroEntry] } }
    od_state := 1 }

theorem C1_structural_change_increments_state_witness :
    (od0m = od0 ∨ od0m.od_state = od0.od_state + 1) ∧
    odE1.od_state = odE.od_state + 1 ∧
    od0d.od_state = od0.od_state + 1 :=
  ⟨C1_structural_change_increments_state.1 30 eqF true od0 1 (some 1) true od0m
      (by decide),
    C1_structural_change_increments_state.2.1 30 eqF true odE 1 5 1 odE1
      (by decide) (by decide),
    C1_structural_change_increments_state.2.2 30 eqF od0 1 (some 1) od0d
      (by decide)⟩

/-- C4 (amended): `move_to_end(key, last=True)` succeeds as a no-op with
the object unchanged exactly when the entry for the key occupies the
physically last used slot of the entry store, index `dk_nentries - 1`.
(In the presence of trailing holes this slot can differ from the last
live slot of the logical iteration order.) -/
theorem C4_noop_iff_last_used_slot (fuel : Nat) (eqf : Nat → Nat → Option Bool)
    (allocOk : Bool) (self_ : PyODictObject) (key hash : Nat) (ix : Int)
    (h0 : ¬ (self_.od_dict.ma_used = 0))
    (hlk : lookdict fuel self_.od_dict.ma_keys eqf key hash = some ix)
    (hix : 0 ≤ ix) :
    OrderedDict_move_to_end_impl fuel eqf allocOk self_ key (some hash) true
        = some (MoveResult.Ok self_)
      ↔ ix = (self_.od_dict.ma_keys.dk_nentries : Int) - 1 := by
  have hne1 : ¬ (ix = DKIX_EMPTY) := by
    intro hc
    rw [hc] at hix
    exact absurd hix (by decide)
  have hne3 : ¬ (ix = DKIX_ERROR) := by
    intro hc
    rw [hc] at hix
    exact absurd hix (by decide)
  constructor
  · intro h
    by_contra hlast
    unfold OrderedDict_move_to_end_impl at h
    rw [if_neg h0] at h
    dsimp only at h
    rw [hlk] at h
    dsimp only at h
    rw [if_neg hne1, if_neg hne3] at h
    simp only [if_true] at h
    unfold move_last_branch at h
    rw [if_neg hlast] at h
    split at h
    · split at h
      · simp at h
      · split at h
        · simp at h
        · split at h
          · simp at h
          · obtain ⟨hp, -, hr⟩ := move_tail_cases _ _ _ _ _ _ _ h
            simp only [MoveResult.Ok.injEq] at hr
            have hst := congrArg PyODictObject.od_state hr
            simp only at hst
            omega
    · obtain ⟨hp, -, hr⟩ := move_tail_cases _ _ _ _ _ _ _ h
      simp only [MoveResult.Ok.injEq] at hr
      have hst := congrArg PyODictObject.od_state hr
      simp only at hst
      omega
  · intro hlast
    unfold OrderedDict_move_to_end_impl
    rw [if_neg h0]
    dsimp only
    rw [hlk]
    dsimp only
    rw [if_neg hne1, if_neg hne3]
    simp only [if_true]
    unfold move_last_branch
    rw [if_pos hlast]

theorem C4_noop_iff_last_used_slot_witness :
    ¬ (od0.od_dict.ma_used = 0) ∧
    lookdict 30 od0.od_dict.ma_keys eqF 2 2 = some 1 ∧
    (0 : Int) ≤ 1 ∧
    (OrderedDict_move_to_end_impl 30 eqF true od0 2 (some 2) true
        = some (MoveResult.Ok od0)
      ↔ (1 : Int) = (od0.od_dict.ma_keys.dk_nentries : Int) - 1) :=
  ⟨by decide, by decide, by decide,
    C4_noop_iff_last_used_slot 30 eqF true od0 2 2 1 (by decide) (by decide)
      (by decide)⟩

/-- C4 counterexample: in `odH` the entry of key 1 (slot 0) is the last
live slot of the logical iteration order (slot 1 is a hole), yet
`move_to_end(1, last=True)` is not a no-op: it relocates the entry and
changes the object. -/
theorem C4_counterexample_hole_after_last_live :
    lastLiveSlot odH.od_dict = some 0 ∧
    lookdict 30 odH.od_dict.ma_keys eqF 1 1 = some 0 ∧
    ¬ (OrderedDict_move_to_end_impl 30 eqF true odH 1 (some 1) true
        = some (MoveResult.Ok odH)) :=
  ⟨by decide, by decide, by decide⟩

theorem C6_lookdict_ident_sound_total_witness :
    keys0.dk_size = 2 ^ 3 ∧ (2 : Nat) < 2 ^ 64 ∧
    (∃ ei, ei < keys0.dk_size ∧ dk_get_index keys0 ei = DKIX_EMPTY) ∧
    (∃ r : Int, lookdict_ident keys0 2 2 (keys0.dk_size + 14) = some r ∧
      r ≠ DKIX_ERROR ∧
      (r = DKIX_EMPTY ∨ (0 ≤ r ∧ (dk_getEntry keys0 r.toNat).me_key = some 2))) :=
  ⟨by decide, by decide, ⟨0, by decide, by decide⟩,
    C6_lookdict_ident_sound_total keys0 2 2 3 (by decide) (by decide)
      ⟨0, by decide, by decide⟩⟩

/-- C3: a non-no-op `move_to_end(key, last=True)` with usable capacity
available copies the entry into slot `n = dk_nentries`, zeroes the
vacated slot, repoints the hash-index cell for that entry to the new
slot, increments `dk_nentries` by 1, and advances the begin offset by 1
exactly when the vacated slot equalled it. -/
theorem C3_move_to_back_effect (fuel : Nat) (eqf : Nat → Nat → Option Bool)
    (allocOk : Bool) (self_ : PyODictObject) (key hash ixn hp : Nat)
    (h0 : ¬ (self_.od_dict.ma_used = 0))
    (hlk : lookdict fuel self_.od_dict.ma_keys eqf key hash = some (Int.ofNat ixn))
    (hnl : ¬ ((Int.ofNat ixn) = (self_.od_dict.ma_keys.dk_nentries : Int) - 1))
    (hus : ¬ (self_.od_dict.ma_keys.dk_usable = 0))
    (hhp : lookdict_index fuel self_.od_dict.ma_keys hash (Int.ofNat ixn)
      = some (Int.ofNat hp))
    (hixlt : ixn < self_.od_dict.ma_keys.dk_nentries)
    (hcap : self_.od_dict.ma_keys.dk_nentries < self_.od_dict.ma_keys.dk_entries.length)
    (hplt : hp < self_.od_dict.ma_keys.dk_indices.length) :
    ∃ od2, OrderedDict_move_to_end_impl fuel eqf allocOk self_ key (some hash) true
        = some (MoveResult.Ok od2) ∧
      dk_getEntry od2.od_dict.ma_keys self_.od_dict.ma_keys.dk_nentries
        = dk_getEntry self_.od_dict.ma_keys ixn ∧
      dk_getEntry od2.od_dict.ma_keys ixn = zeroEntry ∧
      dk_get_index od2.od_dict.ma_keys hp
        = Int.ofNat self_.od_dict.ma_keys.dk_nentries ∧
      od2.od_dict.ma_keys.dk_nentries = self_.od_dict.ma_keys.dk_nentries + 1 ∧
      od2.od_dict.ma_offset =
        (if ixn = self_.od_dict.ma_offset then self_.od_dict.ma_offset + 1
          else self_.od_dict.ma_offset) := by
  have hne1 : ¬ ((Int.ofNat ixn) = DKIX_EMPTY) := by
    intro hc
    simp [DKIX_EMPTY] at hc
  have hne3 : ¬ ((Int.ofNat ixn) = DKIX_ERROR) := by
    intro hc
    simp [DKIX_ERROR] at hc
  have hnen : ixn ≠ self_.od_dict.ma_keys.dk_nentries := by omega
  refine ⟨⟨⟨self_.od_dict.ma_used,
      (if ixn = self_.od_dict.ma_offset then self_.od_dict.ma_offset + 1
        else self_.od_dict.ma_offset),
      move_entry self_.od_dict.ma_keys ixn self_.od_dict.ma_keys.dk_nentries hp⟩,
    self_.od_state + 1⟩, ?_, ?_, ?_, ?_, ?_, ?_⟩
  · unfold OrderedDict_move_to_end_impl
    rw [if_neg h0]
    dsimp only
    rw [hlk]
    dsimp only
    rw [if_neg hne1, if_neg hne3]
    simp only [if_true]
    unfold move_last_branch
    rw [if_neg hnl, if_neg hus]
    unfold move_tail
    simp only [Int.ofNat_eq_coe, Int.toNat_natCast] at hhp ⊢
    rw [hhp]
    simp only [Int.toNat_natCast]
  · unfold move_entry dk_getEntry
    rw [getD_set_ne _ _ _ hnen, getD_set_self _ _ _ _ hcap]
  · unfold move_entry dk_getEntry
    rw [getD_set_self]
    simpa using Nat.lt_of_lt_of_le hixlt (Nat.le_of_lt hcap)
  · unfold move_entry dk_get_index
    rw [getD_set_self _ _ _ _ hplt]
  · rfl
  · rfl

theorem C3_move_to_back_effect_witness :
    ¬ (od0.od_dict.ma_used = 0) ∧
    lookdict 30 od0.od_dict.ma_keys eqF 1 1 = some (Int.ofNat 0) ∧
    ¬ ((Int.ofNat 0) = (od0.od_dict.ma_keys.dk_nentries : Int) - 1) ∧
    (∃ od2, OrderedDict_move_to_end_impl 30 eqF true od0 1 (some 1) true
        = some (MoveResult.Ok od2) ∧
      dk_getEntry od2.od_dict.ma_keys od0.od_dict.ma_keys.dk_nentries
        = dk_getEntry od0.od_dict.ma_keys 0 ∧
      dk_getEntry od2.od_dict.ma_keys 0 = zeroEntry ∧
      dk_get_index od2.od_dict.ma_keys 1
        = Int.ofNat od0.od_dict.ma_keys.dk_nentries ∧
      od2.od_dict.ma_keys.dk_nentries = od0.od_dict.ma_keys.dk_nentries + 1 ∧
      od2.od_dict.ma_offset =
        (if 0 = od0.od_dict.ma_offset then od0.od_dict.ma_offset + 1
          else od0.od_dict.ma_offset)) :=
  ⟨by decide, by decide, by decide,
    C3_move_to_back_effect 30 eqF true od0 1 1 0 1 (by decide) (by decide)
      (by decide) (by decide) (by decide) (by decide) (by decide) (by decide)⟩

/-- Shape of a successful modelled `dictresize`. -/
theorem dictresize_cases (fuel : Nat) (mp : PyDictObject) (minused offset : Nat)
    (mp2 : PyDictObject) (h : dictresize fuel mp minused offset = some mp2) :
    mp2.ma_used = mp.ma_used ∧ mp2.ma_offset = offset ∧
    mp2.ma_keys.dk_size = dict_new_size minused ∧
    mp2.ma_keys.dk_nentries
      = offset + (mp.ma_keys.dk_entries.filter isLive).length ∧
    mp2.ma_keys.dk_entries =
      List.replicate offset zeroEntry ++ mp.ma_keys.dk_entries.filter isLive ++
        List.replicate
          (dict_new_size minused
            - (offset + (mp.ma_keys.dk_entries.filter isLive).length))
          zeroEntry := by
  unfold dictresize at h
  dsimp only at h
  split at h
  · simp at h
  · simp only [Option.some.injEq] at h
    rw [← h]
    exact ⟨rfl, rfl, rfl, rfl, rfl⟩

/-- The doubling loop returns the first member of the chain
`s, 2s, 4s, ...` that fits the request, provided the fuel suffices. -/
theorem dict_new_size_loop_spec (minused : Nat) :
    ∀ fuel s, minused ≤ s * 2 ^ fuel →
      minused ≤ dict_new_size_loop minused fuel s ∧
      ∃ t, dict_new_size_loop minused fuel s = s * 2 ^ t ∧
        ∀ u, u < t → ¬ (minused ≤ s * 2 ^ u) := by
  intro fuel
  induction fuel with
  | zero =>
    intro s h
    simp only [dict_new_size_loop]
    refine ⟨by simpa using h, 0, by simp, by omega⟩
  | succ fuel ih =>
    intro s h
    by_cases hle : minused ≤ s
    · refine ⟨by simp [dict_new_size_loop, hle], 0,
        by simp [dict_new_size_loop, hle], by omega⟩
    · have h2 : minused ≤ (s * 2) * 2 ^ fuel := by
        have hr : s * 2 ^ (fuel + 1) = (s * 2) * 2 ^ fuel := by
          rw [pow_succ]
          ring
        rw [← hr]
        exact h
      obtain ⟨hr, t, htr, hmin⟩ := ih (s * 2) h2
      refine ⟨by simpa [dict_new_size_loop, hle] using hr, t + 1, ?_, ?_⟩
      · have hcalc : (s * 2) * 2 ^ t = s * 2 ^ (t + 1) := by
          rw [pow_succ]
          ring
        simp only [dict_new_size_loop, hle, if_false]
        rw [htr, hcalc]
      · intro u hu
        cases u with
        | zero => simpa using hle
        | succ u2 =>
          intro hc
          apply hmin u2 (by omega)
          have hcalc : s * 2 ^ (u2 + 1) = (s * 2) * 2 ^ u2 := by
            rw [pow_succ]
            ring
          rw [← hcalc]
          exact hc

/-- The modelled resize capacity is the least power of two that is at
least the requested minimum and at least 8. -/
theorem dict_new_size_least (m : Nat) :
    (∃ j, dict_new_size m = 2 ^ j) ∧ 8 ≤ dict_new_size m ∧ m ≤ dict_new_size m ∧
    ∀ c, (∃ j2, c = 2 ^ j2) → 8 ≤ c → m ≤ c → dict_new_size m ≤ c := by
  have hfuel : m ≤ 8 * 2 ^ m := by
    have h1 : m < 2 ^ m := Nat.lt_two_pow m
    have h2 : 2 ^ m ≤ 8 * 2 ^ m := Nat.le_mul_of_pos_left _ (by norm_num)
    omega
  obtain ⟨hge, t, ht, hmin⟩ := dict_new_size_loop_spec m m 8 hfuel
  have hpow8 : (8 : Nat) * 2 ^ t = 2 ^ (t + 3) := by
    have h8 : (8:Nat) = 2 ^ 3 := by norm_num
    rw [h8, pow_add]
    ring
  refine ⟨⟨t + 3, by rw [dict_new_size, ht, hpow8]⟩, ?_, ?_, ?_⟩
  · rw [dict_new_size, ht]
    have hp : 0 < 2 ^ t := Nat.pos_pow_of_pos t (by norm_num)
    omega
  · rw [dict_new_size]
    exact hge
  · rintro c ⟨j2, rfl⟩ h8 hm
    have h3 : 3 ≤ j2 := by
      have hpow : (2:Nat) ^ 3 ≤ 2 ^ j2 := by
        norm_num
        omega
      exact (Nat.pow_le_pow_iff_right (by norm_num)).mp hpow
    have hc : (2:Nat) ^ j2 = 8 * 2 ^ (j2 - 3) := by
      have hj : 3 + (j2 - 3) = j2 := by omega
      calc (2:Nat) ^ j2 = 2 ^ (3 + (j2 - 3)) := by rw [hj]
        _ = 2 ^ 3 * 2 ^ (j2 - 3) := by rw [pow_add]
        _ = 8 * 2 ^ (j2 - 3) := by norm_num
    by_contra hlt
    push_neg at hlt
    have hj : j2 - 3 < t := by
      by_contra hj2
      push_neg at hj2
      have hpl : (2:Nat) ^ t ≤ 2 ^ (j2 - 3) := Nat.pow_le_pow_right (by norm_num) hj2
      rw [dict_new_size, ht] at hlt
      rw [hc] at hlt
      omega
    exact hmin (j2 - 3) hj (by rw [← hc]; exact hm)

/-- C7: when a move-to-back reorder finds no usable slot, the capacity it
requests is `GROWTH_RATE + offset = 2*used + (old_capacity >> 1) + offset`
and the resulting table capacity is that request rounded up to the next
power of two with a floor of 8 slots (least power of two above both). -/
theorem C7_reorder_resize_capacity (fuel : Nat) (eqf : Nat → Nat → Option Bool)
    (self_ : PyODictObject) (key hash : Nat) (ix : Int) (od2 : PyODictObject)
    (h0 : ¬ (self_.od_dict.ma_used = 0))
    (hlk : lookdict fuel self_.od_dict.ma_keys eqf key hash = some ix)
    (hix : 0 ≤ ix)
    (hnl : ¬ (ix = (self_.od_dict.ma_keys.dk_nentries : Int) - 1))
    (hus : self_.od_dict.ma_keys.dk_usable = 0)
    (hok : OrderedDict_move_to_end_impl fuel eqf true self_ key (some hash) true
      = some (MoveResult.Ok od2)) :
    od2.od_dict.ma_keys.dk_size
      = dict_new_size (self_.od_dict.ma_used * 2
          + (self_.od_dict.ma_keys.dk_size >>> 1) + self_.od_dict.ma_offset) ∧
    (∃ j, od2.od_dict.ma_keys.dk_size = 2 ^ j) ∧
    8 ≤ od2.od_dict.ma_keys.dk_size ∧
    self_.od_dict.ma_used * 2 + (self_.od_dict.ma_keys.dk_size >>> 1)
        + self_.od_dict.ma_offset
      ≤ od2.od_dict.ma_keys.dk_size ∧
    (∀ c, (∃ j2, c = 2 ^ j2) → 8 ≤ c →
      self_.od_dict.ma_used * 2 + (self_.od_dict.ma_keys.dk_size >>> 1)
          + self_.od_dict.ma_offset ≤ c →
      od2.od_dict.ma_keys.dk_size ≤ c) := by
  have hne1 : ¬ (ix = DKIX_EMPTY) := by
    intro hc
    rw [hc] at hix
    exact absurd hix (by decide)
  have hne3 : ¬ (ix = DKIX_ERROR) := by
    intro hc
    rw [hc] at hix
    exact absurd hix (by decide)
  have hsize : od2.od_dict.ma_keys.dk_size
      = dict_new_size (GROWTH_RATE self_.od_dict + self_.od_dict.ma_offset) := by
    unfold OrderedDict_move_to_end_impl at hok
    rw [if_neg h0] at hok
    dsimp only at hok
    rw [hlk] at hok
    dsimp only at hok
    rw [if_neg hne1, if_neg hne3] at hok
    simp only [if_true] at hok
    unfold move_last_branch at hok
    rw [if_neg hnl, if_pos hus,
      if_neg (by decide : ¬ ((true : Bool) = false))] at hok
    split at hok
    · simp at hok
    · rename_i mp2 hres
      obtain ⟨-, -, hsz, -, -⟩ := dictresize_cases _ _ _ _ _ hres
      split at hok
      · simp at hok
      · rename_i ix2 hident
        obtain ⟨hp, -, hr⟩ := move_tail_cases _ _ _ _ _ _ _ hok
        simp only [MoveResult.Ok.injEq] at hr
        rw [hr]
        simpa [move_entry] using hsz
  have hform : GROWTH_RATE self_.od_dict + self_.od_dict.ma_offset
      = self_.od_dict.ma_used * 2 + (self_.od_dict.ma_keys.dk_size >>> 1)
        + self_.od_dict.ma_offset := rfl
  rw [hform] at hsize
  obtain ⟨hpow, h8, hmin, hleast⟩ := dict_new_size_least
    (self_.od_dict.ma_used * 2 + (self_.od_dict.ma_keys.dk_size >>> 1)
      + self_.od_dict.ma_offset)
  rw [hsize]
  exact ⟨rfl, hpow, h8, hmin, hleast⟩

/-- `od0` with its usable count exhausted. -/
def odF : PyODictObject :=
  { od_dict :=
      { ma_used := 2, ma_offset := 0
        ma_keys :=
          { dk_size := 8, dk_usable := 0, dk_nentries := 2
            dk_indices := [DKIX_EMPTY, 0, 1, DKIX_EMPTY, DKIX_EMPTY, DKIX_EMPTY, DKIX_EMPTY, DKIX_EMPTY]
            dk_entries := [⟨1, some 1, some 11⟩, ⟨2, some 2, some 12⟩, zeroEntry, zeroEntry, zeroEntry] } }
    od_state := 0 }

/-- The state of `odF` after the resizing `move_to_end(1, last=True)`. -/
def odFm : PyODictObject :=
  { od_dict :=
      { ma_used := 2, ma_offset := 1
        ma_keys :=
          { dk_size := 8, dk_usable := 2, dk_nentries := 3
            dk_indices := [DKIX_EMPTY, 2, 1, DKIX_EMPTY, DKIX_EMPTY, DKIX_EMPTY, DKIX_EMPTY, DKIX_EMPTY]
            dk_entries := [zeroEntry, ⟨2, some 2, some 12⟩, ⟨1, some 1, some 11⟩,
              zeroEntry, zeroEntry, zeroEntry, zeroEntry, zeroEntry] } }
    od_state := 1 }

theorem C7_reorder_resize_capacity_witness :
    ¬ (odF.od_dict.ma_used = 0) ∧
    lookdict 40 odF.od_dict.ma_keys eqF 1 1 = some 0 ∧
    odF.od_dict.ma_keys.dk_usable = 0 ∧
    OrderedDict_move_to_end_impl 40 eqF true odF 1 (some 1) true
      = some (MoveResult.Ok odFm) ∧
    odFm.od_dict.ma_keys.dk_size
      = dict_new_size (odF.od_dict.ma_used * 2
          + (odF.od_dict.ma_keys.dk_size >>> 1) + odF.od_dict.ma_offset) ∧
    8 ≤ odFm.od_dict.ma_keys.dk_size ∧
    odFm.od_dict.ma_keys.dk_size ≤ 8 := by
  have h := C7_reorder_resize_capacity 40 eqF odF 1 1 0 odFm (by decide)
    (by decide) (by decide) (by decide) (by decide) (by decide)
  exact ⟨by decide, by decide, by decide, by decide, h.1, h.2.2.1,
    h.2.2.2.2 8 ⟨3, by norm_num⟩ (by norm_num) (by decide)⟩

/-- C5: `move_to_end(key, last=False)` with begin offset 0 first resizes
reserving `ma_used / 2 + 2` leading empty slots, then decrements the
offset and places the entry (relocated by identity lookup) at the new
offset, zeroing the vacated slot and repointing its hash-index cell; and
when the entry already sits at the front slot the call is a no-op. -/
theorem C5_move_to_front_reserve :
    (∀ (fuel : Nat) (eqf : Nat → Nat → Option Bool) (self_ : PyODictObject)
        (key hash ixn ix2 hp2 k0 : Nat) (mp2 : PyDictObject),
      ¬ (self_.od_dict.ma_used = 0) →
      lookdict fuel self_.od_dict.ma_keys eqf key hash = some (Int.ofNat ixn) →
      ¬ ((Int.ofNat ixn) = (self_.od_dict.ma_offset : Int)) →
      self_.od_dict.ma_offset = 0 →
      (dk_getEntry self_.od_dict.ma_keys ixn).me_key = some k0 →
      dictresize fuel self_.od_dict
          (GROWTH_RATE self_.od_dict + (self_.od_dict.ma_used / 2 + 2))
          (self_.od_dict.ma_used / 2 + 2) = some mp2 →
      lookdict_ident mp2.ma_keys k0 hash fuel = some (Int.ofNat ix2) →
      lookdict_index fuel mp2.ma_keys hash (Int.ofNat ix2)
          = some (Int.ofNat hp2) →
      self_.od_dict.ma_used / 2 + 2 ≤ ix2 →
      ix2 < mp2.ma_keys.dk_entries.length →
      hp2 < mp2.ma_keys.dk_indices.length →
      ∃ od2, OrderedDict_move_to_end_impl fuel eqf true self_ key (some hash) false
          = some (MoveResult.Ok od2) ∧
        od2.od_dict.ma_offset = self_.od_dict.ma_used / 2 + 1 ∧
        od2.od_dict.ma_keys.dk_size
          = dict_new_size (GROWTH_RATE self_.od_dict
              + (self_.od_dict.ma_used / 2 + 2)) ∧
        dk_getEntry od2.od_dict.ma_keys (self_.od_dict.ma_used / 2 + 1)
          = dk_getEntry mp2.ma_keys ix2 ∧
        (dk_getEntry od2.od_dict.ma_keys (self_.od_dict.ma_used / 2 + 1)).me_key
          = some k0 ∧
        dk_getEntry od2.od_dict.ma_keys ix2 = zeroEntry ∧
        dk_get_index od2.od_dict.ma_keys hp2
          = Int.ofNat (self_.od_dict.ma_used / 2 + 1)) ∧
    (∀ (fuel : Nat) (eqf : Nat → Nat → Option Bool) (allocOk : Bool)
        (self_ : PyODictObject) (key hash ixn : Nat),
      ¬ (self_.od_dict.ma_used = 0) →
      lookdict fuel self_.od_dict.ma_keys eqf key hash = some (Int.ofNat ixn) →
      (Int.ofNat ixn) = (self_.od_dict.ma_offset : Int) →
      OrderedDict_move_to_end_impl fuel eqf allocOk self_ key (some hash) false
        = some (MoveResult.Ok self_)) := by
  constructor
  · intro fuel eqf self_ key hash ixn ix2 hp2 k0 mp2 h0 hlk hfront hoff0 hk0
      hres hident hhp2 hoffle hix2len hp2len
    have hne1 : ¬ ((Int.ofNat ixn) = DKIX_EMPTY) := by
      intro hc
      simp [DKIX_EMPTY] at hc
    have hne3 : ¬ ((Int.ofNat ixn) = DKIX_ERROR) := by
      intro hc
      simp [DKIX_ERROR] at hc
    have hkey1 : (dk_getEntry self_.od_dict.ma_keys ixn).me_key.getD 0 = k0 := by
      rw [hk0]
      rfl
    have htne : self_.od_dict.ma_used / 2 + 2 - 1 ≠ ix2 := by omega
    have htlt : self_.od_dict.ma_used / 2 + 2 - 1 < mp2.ma_keys.dk_entries.length := by
      omega
    have hsub : self_.od_dict.ma_used / 2 + 2 - 1 = self_.od_dict.ma_used / 2 + 1 := by
      omega
    obtain ⟨-, -, hsz2, -, -⟩ := dictresize_cases _ _ _ _ _ hres
    have hkmatch := lookdict_ident_loop_sound mp2.ma_keys k0 fuel _ _ _ hident
    have hix2key : (dk_getEntry mp2.ma_keys ix2).me_key = some k0 := by
      rcases hkmatch with h | h
      · simp [DKIX_EMPTY] at h
      · obtain ⟨-, h2⟩ := h
        simpa using h2
    refine ⟨⟨⟨mp2.ma_used, self_.od_dict.ma_used / 2 + 2 - 1,
        move_entry mp2.ma_keys ix2 (self_.od_dict.ma_used / 2 + 2 - 1) hp2⟩,
      self_.od_state + 1⟩, ?_, ?_, ?_, ?_, ?_, ?_, ?_⟩
    · unfold OrderedDict_move_to_end_impl
      rw [if_neg h0]
      dsimp only
      rw [hlk]
      dsimp only
      rw [if_neg hne1, if_neg hne3]
      simp only [Bool.false_eq_true, if_false]
      unfold move_front_branch
      rw [if_neg hfront, if_pos hoff0,
        if_neg (by decide : ¬ ((true : Bool) = false))]
      simp only [Int.ofNat_eq_coe, Int.toNat_natCast] at hident hhp2 ⊢
      rw [hkey1, hres]
      dsimp only
      rw [hident]
      dsimp only
      unfold move_front
      simp only [Int.ofNat_eq_coe, Int.toNat_natCast]
      rw [hhp2]
      simp only [Int.toNat_natCast]
    · dsimp only
      rw [hsub]
    · dsimp only
      simpa [move_entry] using hsz2
    · dsimp only
      unfold move_entry dk_getEntry
      dsimp only
      rw [hsub]
      rw [getD_set_ne _ _ _ (by omega), getD_set_self _ _ _ _ (by omega)]
    · dsimp only
      unfold move_entry dk_getEntry
      dsimp only
      rw [hsub]
      rw [getD_set_ne _ _ _ (by omega), getD_set_self _ _ _ _ (by omega)]
      exact hix2key
    · dsimp only
      unfold move_entry dk_getEntry
      dsimp only
      rw [getD_set_self]
      simpa using hix2len
    · dsimp only
      unfold move_entry dk_get_index
      dsimp only
      rw [getD_set_self _ _ _ _ hp2len, hsub]
  · intro fuel eqf allocOk self_ key hash ixn h0 hlk hfront
    have hne1 : ¬ ((Int.ofNat ixn) = DKIX_EMPTY) := by
      intro hc
      simp [DKIX_EMPTY] at hc
    have hne3 : ¬ ((Int.ofNat ixn) = DKIX_ERROR) := by
      intro hc
      simp [DKIX_ERROR] at hc
    unfold OrderedDict_move_to_end_impl
    rw [if_neg h0]
    dsimp only
    rw [hlk]
    dsimp only
    rw [if_neg hne1, if_neg hne3]
    simp only [Bool.false_eq_true, if_false]
    unfold move_front_branch
    rw [if_pos hfront]

/-- `od0` resized with a left reservation of `2/2 + 2 = 3` slots. -/
def od0r : PyDictObject :=
  { ma_used := 2, ma_offset := 3
    ma_keys :=
      { dk_size := 16, dk_usable := 5, dk_nentries := 5
        dk_indices := [DKIX_EMPTY, 3, 4, DKIX_EMPTY, DKIX_EMPTY, DKIX_EMPTY, DKIX_EMPTY, DKIX_EMPTY,
          DKIX_EMPTY, DKIX_EMPTY, DKIX_EMPTY, DKIX_EMPTY, DKIX_EMPTY, DKIX_EMPTY, DKIX_EMPTY, DKIX_EMPTY]
        dk_entries := [zeroEntry, zeroEntry, zeroEntry, ⟨1, some 1, some 11⟩,
          ⟨2, some 2, some 12⟩, zeroEntry, zeroEntry, zeroEntry, zeroEntry, zeroEntry,
          zeroEntry, zeroEntry, zeroEntry, zeroEntry, zeroEntry, zeroEntry] } }

theorem C5_move_to_front_reserve_witness :
    ¬ (od0.od_dict.ma_used = 0) ∧
    lookdict 40 od0.od_dict.ma_keys eqF 2 2 = some (Int.ofNat 1) ∧
    od0.od_dict.ma_offset = 0 ∧
    dictresize 40 od0.od_dict
        (GROWTH_RATE od0.od_dict + (od0.od_dict.ma_used / 2 + 2))
        (od0.od_dict.ma_used / 2 + 2) = some od0r ∧
    (∃ od2, OrderedDict_move_to_end_impl 40 eqF true od0 2 (some 2) false
        = some (MoveResult.Ok od2) ∧
      od2.od_dict.ma_offset = od0.od_dict.ma_used / 2 + 1 ∧
      od2.od_dict.ma_keys.dk_size
        = dict_new_size (GROWTH_RATE od0.od_dict + (od0.od_dict.ma_used / 2 + 2)) ∧
      dk_getEntry od2.od_dict.ma_keys (od0.od_dict.ma_used / 2 + 1)
        = dk_getEntry od0r.ma_keys 4 ∧
      (dk_getEntry od2.od_dict.ma_keys (od0.od_dict.ma_used / 2 + 1)).me_key
        = some 2 ∧
      dk_getEntry od2.od_dict.ma_keys 4 = zeroEntry ∧
      dk_get_index od2.od_dict.ma_keys 2
        = Int.ofNat (od0.od_dict.ma_used / 2 + 1)) ∧
    OrderedDict_move_to_end_impl 40 eqF true od0 1 (some 1) false
      = some (MoveResult.Ok od0) :=
  ⟨by decide, by decide, by decide, by decide,
    C5_move_to_front_reserve.1 40 eqF od0 2 2 1 4 2 2 od0r (by decide)
      (by decide) (by decide) (by decide) (by decide) (by decide) (by decide)
      (by decide) (by decide) (by decide) (by decide),
    C5_move_to_front_reserve.2 40 eqF true od0 1 1 0 (by decide) (by decide)
      (by decide)⟩

theorem pairOf_of_not_live (e : PyDictKeyEntry) (h : isLive e = false) :
    pairOf e = none := by
  unfold isLive at h
  unfold pairOf
  cases hv : e.me_value with
  | none => cases e.me_key <;> simp
  | some v => rw [hv] at h; simp at h

theorem filterMap_pairOf_replicate_zero (n : Nat) :
    (List.replicate n zeroEntry).filterMap pairOf = [] := by
  induction n with
  | zero => simp
  | succ n ih => simp [List.replicate_succ, List.filterMap_cons, pairOf_zeroEntry, ih]

theorem filterMap_pairOf_filter_live (l : List PyDictKeyEntry) :
    (l.filter isLive).filterMap pairOf = l.filterMap pairOf := by
  induction l with
  | nil => simp
  | cons a l ih =>
    by_cases ha : isLive a
    · simp [List.filter_cons, ha, List.filterMap_cons, ih]
    · have hz := pairOf_of_not_live a (by simpa using ha)
      simp [List.filter_cons, ha, List.filterMap_cons, hz, ih]

/-- The modelled resize preserves the multiset of stored pairs. -/
theorem livePairs_dictresize (fuel : Nat) (mp : PyDictObject)
    (minused offset : Nat) (mp2 : PyDictObject)
    (h : dictresize fuel mp minused offset = some mp2) :
    livePairs mp2.ma_keys.dk_entries = livePairs mp.ma_keys.dk_entries := by
  obtain ⟨-, -, -, -, hent⟩ := dictresize_cases _ _ _ _ _ h
  rw [hent]
  unfold livePairs
  simp only [List.filterMap_append, filterMap_pairOf_replicate_zero,
    filterMap_pairOf_filter_live, List.append_nil, List.nil_append]

theorem getD_append_all_zero (A R : List PyDictKeyEntry)
    (hR : ∀ x ∈ R, x = zeroEntry) :
    (A ++ R).getD A.length zeroEntry = zeroEntry := by
  rw [List.getD_eq_getElem?_getD, List.getElem?_append_right (le_refl _)]
  simp only [Nat.sub_self]
  cases R with
  | nil => simp
  | cons r R => simp [hR r (by simp)]

/-- The slot at the populated high-water mark of a freshly resized table
is zeroed (it is padding or out of range). -/
theorem dictresize_high_slot_zero (fuel : Nat) (mp : PyDictObject)
    (minused offset : Nat) (mp2 : PyDictObject)
    (h : dictresize fuel mp minused offset = some mp2) :
    dk_getEntry mp2.ma_keys mp2.ma_keys.dk_nentries = zeroEntry := by
  obtain ⟨-, -, -, hn, hent⟩ := dictresize_cases _ _ _ _ _ h
  unfold dk_getEntry
  rw [hent, hn]
  have hlen : (List.replicate offset zeroEntry
        ++ mp.ma_keys.dk_entries.filter isLive).length
      = offset + (mp.ma_keys.dk_entries.filter isLive).length := by
    simp
  rw [← hlen]
  exact getD_append_all_zero _ _ (fun x hx => List.eq_of_mem_replicate hx)

/-- Every slot inside the reserved leading region of a freshly resized
table is zeroed. -/
theorem dictresize_low_slot_zero (fuel : Nat) (mp : PyDictObject)
    (minused offset : Nat) (mp2 : PyDictObject) (p : Nat)
    (h : dictresize fuel mp minused offset = some mp2) (hp : p < offset) :
    dk_getEntry mp2.ma_keys p = zeroEntry := by
  obtain ⟨-, -, -, -, hent⟩ := dictresize_cases _ _ _ _ _ h
  unfold dk_getEntry
  rw [hent, List.getD_eq_getElem?_getD,
    List.getElem?_append_left (by simp; omega),
    List.getElem?_append_left (by simpa using hp),
    List.getElem?_replicate]
  simp [hp]

/-- The observable effect of the shared relocation step: pairs preserved,
`dk_nentries` up one, `dk_usable` down one, capacity unchanged, and no
index cell or entry slot outside the three touched locations changes. -/
theorem move_entry_frame (keys : PyDictKeysObject) (ixn target hp : Nat)
    (hixlen : ixn < keys.dk_entries.length)
    (htlen : target < keys.dk_entries.length)
    (htne : target ≠ ixn)
    (hdead : pairOf (dk_getEntry keys target) = none) :
    livePairs (move_entry keys ixn target hp).dk_entries
        = livePairs keys.dk_entries ∧
    (move_entry keys ixn target hp).dk_nentries = keys.dk_nentries + 1 ∧
    (move_entry keys ixn target hp).dk_usable = keys.dk_usable - 1 ∧
    (move_entry keys ixn target hp).dk_size = keys.dk_size ∧
    (∀ c, c ≠ hp →
      dk_get_index (move_entry keys ixn target hp) c = dk_get_index keys c) ∧
    (∀ j, j ≠ ixn → j ≠ target →
      dk_getEntry (move_entry keys ixn target hp) j = dk_getEntry keys j) := by
  refine ⟨?_, rfl, rfl, rfl, ?_, ?_⟩
  · unfold move_entry
    dsimp only
    exact livePairs_move _ _ _ hixlen htlen htne hdead
  · intro c hc
    unfold move_entry dk_get_index
    dsimp only
    exact getD_set_ne _ _ _ (fun h => hc h.symm)
  · intro j hj1 hj2
    unfold move_entry dk_getEntry
    dsimp only
    rw [getD_set_ne _ _ _ (fun h => hj1 h.symm),
      getD_set_ne _ _ _ (fun h => hj2 h.symm)]

/-- C9: a successful `move_to_end` preserves the multiset of key-to-value
pairs and the live-entry count `ma_used`; a non-no-op call that needs no
resize changes only the two touched entry slots, the one hash-index cell
of the moved key, the begin offset and the bookkeeping counters, with
`dk_nentries` up by exactly 1 and `dk_usable` down by exactly 1.  Three
parts: the move-to-back without resize, the move-to-front without
resize, and the resizing move-to-back (pairs and count only). -/
theorem C9_move_to_end_frame :
    (∀ (fuel : Nat) (eqf : Nat → Nat → Option Bool) (allocOk : Bool)
        (self_ : PyODictObject) (key hash ixn hp : Nat),
      ¬ (self_.od_dict.ma_used = 0) →
      lookdict fuel self_.od_dict.ma_keys eqf key hash = some (Int.ofNat ixn) →
      ¬ ((Int.ofNat ixn) = (self_.od_dict.ma_keys.dk_nentries : Int) - 1) →
      ¬ (self_.od_dict.ma_keys.dk_usable = 0) →
      lookdict_index fuel self_.od_dict.ma_keys hash (Int.ofNat ixn)
          = some (Int.ofNat hp) →
      ixn < self_.od_dict.ma_keys.dk_nentries →
      self_.od_dict.ma_keys.dk_nentries < self_.od_dict.ma_keys.dk_entries.length →
      hp < self_.od_dict.ma_keys.dk_indices.length →
      pairOf (dk_getEntry self_.od_dict.ma_keys
        self_.od_dict.ma_keys.dk_nentries) = none →
      ∃ od2, OrderedDict_move_to_end_impl fuel eqf allocOk self_ key (some hash) true
          = some (MoveResult.Ok od2) ∧
        od2.od_dict.ma_used = self_.od_dict.ma_used ∧
        livePairs od2.od_dict.ma_keys.dk_entries
          = livePairs self_.od_dict.ma_keys.dk_entries ∧
        od2.od_dict.ma_keys.dk_nentries = self_.od_dict.ma_keys.dk_nentries + 1 ∧
        od2.od_dict.ma_keys.dk_usable = self_.od_dict.ma_keys.dk_usable - 1 ∧
        od2.od_dict.ma_keys.dk_size = self_.od_dict.ma_keys.dk_size ∧
        (∀ c, c ≠ hp →
          dk_get_index od2.od_dict.ma_keys c
            = dk_get_index self_.od_dict.ma_keys c) ∧
        (∀ j, j ≠ ixn → j ≠ self_.od_dict.ma_keys.dk_nentries →
          dk_getEntry od2.od_dict.ma_keys j
            = dk_getEntry self_.od_dict.ma_keys j)) ∧
    (∀ (fuel : Nat) (eqf : Nat → Nat → Option Bool) (allocOk : Bool)
        (self_ : PyODictObject) (key hash ixn hp : Nat),
      ¬ (self_.od_dict.ma_used = 0) →
      lookdict fuel self_.od_dict.ma_keys eqf key hash = some (Int.ofNat ixn) →
      ¬ ((Int.ofNat ixn) = (self_.od_dict.ma_offset : Int)) →
      ¬ (self_.od_dict.ma_offset = 0) →
      lookdict_index fuel self_.od_dict.ma_keys hash (Int.ofNat ixn)
          = some (Int.ofNat hp) →
      self_.od_dict.ma_offset ≤ ixn →
      ixn < self_.od_dict.ma_keys.dk_entries.length →
      hp < self_.od_dict.ma_keys.dk_indices.length →
      pairOf (dk_getEntry self_.od_dict.ma_keys
        (self_.od_dict.ma_offset - 1)) = none →
      ∃ od2, OrderedDict_move_to_end_impl fuel eqf allocOk self_ key (some hash) false
          = some (MoveResult.Ok od2) ∧
        od2.od_dict.ma_used = self_.od_dict.ma_used ∧
        livePairs od2.od_dict.ma_keys.dk_entries
          = livePairs self_.od_dict.ma_keys.dk_entries ∧
        od2.od_dict.ma_keys.dk_nentries = self_.od_dict.ma_keys.dk_nentries + 1 ∧
        od2.od_dict.ma_keys.dk_usable = self_.od_dict.ma_keys.dk_usable - 1 ∧
        od2.od_dict.ma_keys.dk_size = self_.od_dict.ma_keys.dk_size ∧
        od2.od_dict.ma_offset = self_.od_dict.ma_offset - 1 ∧
        (∀ c, c ≠ hp →
          dk_get_index od2.od_dict.ma_keys c
            = dk_get_index self_.od_dict.ma_keys c) ∧
        (∀ j, j ≠ ixn → j ≠ self_.od_dict.ma_offset - 1 →
          dk_getEntry od2.od_dict.ma_keys j
            = dk_getEntry self_.od_dict.ma_keys j)) ∧
    (∀ (fuel : Nat) (eqf : Nat → Nat → Option Bool) (self_ : PyODictObject)
        (key hash ixn ix2 hp2 k0 : Nat) (mp2 : PyDictObject),
      ¬ (self_.od_dict.ma_used = 0) →
      lookdict fuel self_.od_dict.ma_keys eqf key hash = some (Int.ofNat ixn) →
      ¬ ((Int.ofNat ixn) = (self_.od_dict.ma_keys.dk_nentries : Int) - 1) →
      self_.od_dict.ma_keys.dk_usable = 0 →
      (dk_getEntry self_.od_dict.ma_keys ixn).me_key = some k0 →
      dictresize fuel self_.od_dict
          (GROWTH_RATE self_.od_dict + self_.od_dict.ma_offset)
          self_.od_dict.ma_offset = some mp2 →
      lookdict_ident mp2.ma_keys k0 hash fuel = some (Int.ofNat ix2) →
      lookdict_index fuel mp2.ma_keys hash (Int.ofNat ix2)
          = some (Int.ofNat hp2) →
      ix2 < mp2.ma_keys.dk_nentries →
      mp2.ma_keys.dk_nentries < mp2.ma_keys.dk_entries.length →
      ∃ od2, OrderedDict_move_to_end_impl fuel eqf true self_ key (some hash) true
          = some (MoveResult.Ok od2) ∧
        od2.od_dict.ma_used = self_.od_dict.ma_used ∧
        livePairs od2.od_dict.ma_keys.dk_entries
          = livePairs self_.od_dict.ma_keys.dk_entries) ∧
    (∀ (fuel : Nat) (eqf : Nat → Nat → Option Bool) (self_ : PyODictObject)
        (key hash ixn ix2 hp2 k0 : Nat) (mp2 : PyDictObject),
      ¬ (self_.od_dict.ma_used = 0) →
      lookdict fuel self_.od_dict.ma_keys eqf key hash = some (Int.ofNat ixn) →
      ¬ ((Int.ofNat ixn) = (self_.od_dict.ma_offset : Int)) →
      self_.od_dict.ma_offset = 0 →
      (dk_getEntry self_.od_dict.ma_keys ixn).me_key = some k0 →
      dictresize fuel self_.od_dict
          (GROWTH_RATE self_.od_dict + (self_.od_dict.ma_used / 2 + 2))
          (self_.od_dict.ma_used / 2 + 2) = some mp2 →
      lookdict_ident mp2.ma_keys k0 hash fuel = some (Int.ofNat ix2) →
      lookdict_index fuel mp2.ma_keys hash (Int.ofNat ix2)
          = some (Int.ofNat hp2) →
      self_.od_dict.ma_used / 2 + 2 ≤ ix2 →
      ix2 < mp2.ma_keys.dk_entries.length →
      ∃ od2, OrderedDict_move_to_end_impl fuel eqf true self_ key (some hash) false
          = some (MoveResult.Ok od2) ∧
        od2.od_dict.ma_used = self_.od_dict.ma_used ∧
        livePairs od2.od_dict.ma_keys.dk_entries
          = livePairs self_.od_dict.ma_keys.dk_entries) := by
  refine ⟨?_, ?_, ?_, ?_⟩
  · intro fuel eqf allocOk self_ key hash ixn hp h0 hlk hnl hus hhp hixlt hcap
      hplt hdead
    have hne1 : ¬ ((Int.ofNat ixn) = DKIX_EMPTY) := by
      intro hc
      simp [DKIX_EMPTY] at hc
    have hne3 : ¬ ((Int.ofNat ixn) = DKIX_ERROR) := by
      intro hc
      simp [DKIX_ERROR] at hc
    have hixlen : ixn < self_.od_dict.ma_keys.dk_entries.length := by omega
    obtain ⟨hpair, hn1, hu1, hs1, hidx, hent⟩ :=
      move_entry_frame self_.od_dict.ma_keys ixn
        self_.od_dict.ma_keys.dk_nentries hp hixlen hcap (by omega) hdead
    refine ⟨⟨⟨self_.od_dict.ma_used,
        (if ixn = self_.od_dict.ma_offset then self_.od_dict.ma_offset + 1
          else self_.od_dict.ma_offset),
        move_entry self_.od_dict.ma_keys ixn
          self_.od_dict.ma_keys.dk_nentries hp⟩,
      self_.od_state + 1⟩, ?_, rfl, hpair, hn1, hu1, hs1, hidx, hent⟩
    unfold OrderedDict_move_to_end_impl
    rw [if_neg h0]
    dsimp only
    rw [hlk]
    dsimp only
    rw [if_neg hne1, if_neg hne3]
    simp only [if_true]
    unfold move_last_branch
    rw [if_neg hnl, if_neg hus]
    unfold move_tail
    simp only [Int.ofNat_eq_coe, Int.toNat_natCast] at hhp ⊢
    rw [hhp]
    simp only [Int.toNat_natCast]
  · intro fuel eqf allocOk self_ key hash ixn hp h0 hlk hfr hoff hhp hofle
      hixlen hplt hdead
    have hne1 : ¬ ((Int.ofNat ixn) = DKIX_EMPTY) := by
      intro hc
      simp [DKIX_EMPTY] at hc
    have hne3 : ¬ ((Int.ofNat ixn) = DKIX_ERROR) := by
      intro hc
      simp [DKIX_ERROR] at hc
    have hixoff : ¬ (ixn = self_.od_dict.ma_offset) := by
      intro hc
      apply hfr
      rw [hc]
      rfl
    have htlen : self_.od_dict.ma_offset - 1
        < self_.od_dict.ma_keys.dk_entries.length := by omega
    obtain ⟨hpair, hn1, hu1, hs1, hidx, hent⟩ :=
      move_entry_frame self_.od_dict.ma_keys ixn
        (self_.od_dict.ma_offset - 1) hp hixlen htlen (by omega) hdead
    refine ⟨⟨⟨self_.od_dict.ma_used, self_.od_dict.ma_offset - 1,
        move_entry self_.od_dict.ma_keys ixn
          (self_.od_dict.ma_offset - 1) hp⟩,
      self_.od_state + 1⟩, ?_, rfl, hpair, hn1, hu1, hs1, rfl, hidx, hent⟩
    unfold OrderedDict_move_to_end_impl
    rw [if_neg h0]
    dsimp only
    rw [hlk]
    dsimp only
    rw [if_neg hne1, if_neg hne3]
    simp only [Bool.false_eq_true, if_false]
    unfold move_front_branch
    rw [if_neg hfr, if_neg hoff]
    unfold move_front
    simp only [Int.ofNat_eq_coe, Int.toNat_natCast] at hhp ⊢
    rw [hhp]
    simp only [Int.toNat_natCast]
  · intro fuel eqf self_ key hash ixn ix2 hp2 k0 mp2 h0 hlk hnl hus0 hk0 hres
      hident hhp2 hix2lt hcap2
    have hne1 : ¬ ((Int.ofNat ixn) = DKIX_EMPTY) := by
      intro hc
      simp [DKIX_EMPTY] at hc
    have hne3 : ¬ ((Int.ofNat ixn) = DKIX_ERROR) := by
      intro hc
      simp [DKIX_ERROR] at hc
    have hkey1 : (dk_getEntry self_.od_dict.ma_keys ixn).me_key.getD 0 = k0 := by
      rw [hk0]
      rfl
    have hix2len : ix2 < mp2.ma_keys.dk_entries.length := by omega
    have hdead2 := dictresize_high_slot_zero _ _ _ _ _ hres
    obtain ⟨hused2, -, -, -, -⟩ := dictresize_cases _ _ _ _ _ hres
    obtain ⟨hpair2, -, -, -, -, -⟩ :=
      move_entry_frame mp2.ma_keys ix2 mp2.ma_keys.dk_nentries hp2 hix2len
        hcap2 (by omega) (by rw [hdead2]; exact pairOf_zeroEntry)
    refine ⟨⟨⟨mp2.ma_used,
        (if ix2 = self_.od_dict.ma_offset then self_.od_dict.ma_offset + 1
          else self_.od_dict.ma_offset),
        move_entry mp2.ma_keys ix2 mp2.ma_keys.dk_nentries hp2⟩,
      self_.od_state + 1⟩, ?_, hused2, ?_⟩
    · unfold OrderedDict_move_to_end_impl
      rw [if_neg h0]
      dsimp only
      rw [hlk]
      dsimp only
      rw [if_neg hne1, if_neg hne3]
      simp only [if_true]
      unfold move_last_branch
      rw [if_neg hnl, if_pos hus0,
        if_neg (by decide : ¬ ((true : Bool) = false))]
      simp only [Int.ofNat_eq_coe, Int.toNat_natCast] at hident hhp2 ⊢
      rw [hkey1, hres]
      dsimp only
      rw [hident]
      dsimp only
      unfold move_tail
      simp only [Int.ofNat_eq_coe, Int.toNat_natCast]
      rw [hhp2]
      simp only [Int.toNat_natCast]
    · dsimp only
      rw [hpair2]
      exact livePairs_dictresize _ _ _ _ _ hres
  · intro fuel eqf self_ key hash ixn ix2 hp2 k0 mp2 h0 hlk hfr hoff0 hk0 hres
      hident hhp2 hoffle hix2len
    have hne1 : ¬ ((Int.ofNat ixn) = DKIX_EMPTY) := by
      intro hc
      simp [DKIX_EMPTY] at hc
    have hne3 : ¬ ((Int.ofNat ixn) = DKIX_ERROR) := by
      intro hc
      simp [DKIX_ERROR] at hc
    have hkey1 : (dk_getEntry self_.od_dict.ma_keys ixn).me_key.getD 0 = k0 := by
      rw [hk0]
      rfl
    have htlt : self_.od_dict.ma_used / 2 + 2 - 1
        < mp2.ma_keys.dk_entries.length := by omega
    have hdeadf : pairOf (dk_getEntry mp2.ma_keys
        (self_.od_dict.ma_used / 2 + 2 - 1)) = none := by
      rw [dictresize_low_slot_zero _ _ _ _ _ _ hres (by omega)]
      exact pairOf_zeroEntry
    obtain ⟨hused2, -, -, -, -⟩ := dictresize_cases _ _ _ _ _ hres
    obtain ⟨hpair2, -, -, -, -, -⟩ :=
      move_entry_frame mp2.ma_keys ix2 (self_.od_dict.ma_used / 2 + 2 - 1) hp2
        hix2len htlt (by omega) hdeadf
    refine ⟨⟨⟨mp2.ma_used, self_.od_dict.ma_used / 2 + 2 - 1,
        move_entry mp2.ma_keys ix2 (self_.od_dict.ma_used / 2 + 2 - 1) hp2⟩,
      self_.od_state + 1⟩, ?_, hused2, ?_⟩
    · unfold OrderedDict_move_to_end_impl
      rw [if_neg h0]
      dsimp only
      rw [hlk]
      dsimp only
      rw [if_neg hne1, if_neg hne3]
      simp only [Bool.false_eq_true, if_false]
      unfold move_front_branch
      rw [if_neg hfr, if_pos hoff0,
        if_neg (by decide : ¬ ((true : Bool) = false))]
      simp only [Int.ofNat_eq_coe, Int.toNat_natCast] at hident hhp2 ⊢
      rw [hkey1, hres]
      dsimp only
      rw [hident]
      dsimp only
      unfold move_front
      simp only [Int.ofNat_eq_coe, Int.toNat_natCast]
      rw [hhp2]
      simp only [Int.toNat_natCast]
    · dsimp only
      rw [hpair2]
      exact livePairs_dictresize _ _ _ _ _ hres

/-- `odF` after the modelled resize with preserved offset 0. -/
def mp2F : PyDictObject :=
  { ma_used := 2, ma_offset := 0
    ma_keys :=
      { dk_size := 8, dk_usable := 3, dk_nentries := 2
        dk_indices := [DKIX_EMPTY, 0, 1, DKIX_EMPTY, DKIX_EMPTY, DKIX_EMPTY, DKIX_EMPTY, DKIX_EMPTY]
        dk_entries := [⟨1, some 1, some 11⟩, ⟨2, some 2, some 12⟩, zeroEntry,
          zeroEntry, zeroEntry, zeroEntry, zeroEntry, zeroEntry] } }

theorem C9_move_to_end_frame_witness :
    (∃ od2, OrderedDict_move_to_end_impl 30 eqF true od0 1 (some 1) true
        = some (MoveResult.Ok od2) ∧
      od2.od_dict.ma_used = od0.od_dict.ma_used ∧
      livePairs od2.od_dict.ma_keys.dk_entries
        = livePairs od0.od_dict.ma_keys.dk_entries ∧
      od2.od_dict.ma_keys.dk_nentries = od0.od_dict.ma_keys.dk_nentries + 1 ∧
      od2.od_dict.ma_keys.dk_usable = od0.od_dict.ma_keys.dk_usable - 1 ∧
      od2.od_dict.ma_keys.dk_size = od0.od_dict.ma_keys.dk_size ∧
      (∀ c, c ≠ 1 →
        dk_get_index od2.od_dict.ma_keys c = dk_get_index od0.od_dict.ma_keys c) ∧
      (∀ j, j ≠ 0 → j ≠ od0.od_dict.ma_keys.dk_nentries →
        dk_getEntry od2.od_dict.ma_keys j = dk_getEntry od0.od_dict.ma_keys j)) ∧
    (∃ od2, OrderedDict_move_to_end_impl 30 eqF true od0m 1 (some 1) false
        = some (MoveResult.Ok od2) ∧
      od2.od_dict.ma_used = od0m.od_dict.ma_used ∧
      livePairs od2.od_dict.ma_keys.dk_entries
        = livePairs od0m.od_dict.ma_keys.dk_entries ∧
      od2.od_dict.ma_keys.dk_nentries = od0m.od_dict.ma_keys.dk_nentries + 1 ∧
      od2.od_dict.ma_keys.dk_usable = od0m.od_dict.ma_keys.dk_usable - 1 ∧
      od2.od_dict.ma_keys.dk_size = od0m.od_dict.ma_keys.dk_size ∧
      od2.od_dict.ma_offset = od0m.od_dict.ma_offset - 1 ∧
      (∀ c, c ≠ 1 →
        dk_get_index od2.od_dict.ma_keys c = dk_get_index od0m.od_dict.ma_keys c) ∧
      (∀ j, j ≠ 2 → j ≠ od0m.od_dict.ma_offset - 1 →
        dk_getEntry od2.od_dict.ma_keys j = dk_getEntry od0m.od_dict.ma_keys j)) ∧
    (∃ od2, OrderedDict_move_to_end_impl 40 eqF true odF 1 (some 1) true
        = some (MoveResult.Ok od2) ∧
      od2.od_dict.ma_used = odF.od_dict.ma_used ∧
      livePairs od2.od_dict.ma_keys.dk_entries
        = livePairs odF.od_dict.ma_keys.dk_entries) ∧
    (∃ od2, OrderedDict_move_to_end_impl 40 eqF true od0 2 (some 2) false
        = some (MoveResult.Ok od2) ∧
      od2.od_dict.ma_used = od0.od_dict.ma_used ∧
      livePairs od2.od_dict.ma_keys.dk_entries
        = livePairs od0.od_dict.ma_keys.dk_entries) :=
  ⟨C9_move_to_end_frame.1 30 eqF true od0 1 1 0 1 (by decide) (by decide)
      (by decide) (by decide) (by decide) (by decide) (by decide) (by decide)
      (by decide),
    C9_move_to_end_frame.2.1 30 eqF true od0m 1 1 2 1 (by decide) (by decide)
      (by decide) (by decide) (by decide) (by decide) (by decide) (by decide)
      (by decide),
    C9_move_to_end_frame.2.2.1 40 eqF odF 1 1 0 0 1 1 mp2F (by decide)
      (by decide) (by decide) (by decide) (by decide) (by decide) (by decide)
      (by decide) (by decide) (by decide),
    C9_move_to_end_frame.2.2.2 40 eqF od0 2 2 1 4 2 2 od0r (by decide)
      (by decide) (by decide) (by decide) (by decide) (by decide) (by decide)
      (by decide) (by decide) (by decide)⟩
